import Mathlib

set_option maxHeartbeats 1000000

/-
Verification development for the moonlite front-end and execution core:
the precedence-climbing parser (src/ast/parser.rs together with the
operator-role tables of src/ast/mod.rs), the bytecode compiler
(src/vm/compiler.rs) and the VM dispatch loop (src/vm/mod.rs).

Components whose sources are not part of the repository snapshot
(src/ast/lexer.rs, src/ast/span.rs, src/vm/bytecode.rs, src/vm/value.rs)
are modelled from the specification; each such definition carries a doc
comment starting with "Modelled from the spec:".
-/

/-- Modelled from the spec: `Span` (src/ast/span.rs is not in the snapshot) is
`(filename, start offset, end offset)` over source bytes. -/
structure Span where
  filename : String
  start : Nat
  stop : Nat
deriving DecidableEq, Repr

/-- Modelled from the spec: `extend` combines two spans into their union. -/
def Span.extend (a b : Span) : Span :=
  { filename := a.filename, start := Nat.min a.start b.start, stop := Nat.max a.stop b.stop }

/-- Modelled from the spec: `Span::at`, a span marking the single position
`pos` (used by the string escape sub-parser for point diagnostics). -/
def Span.at (filename : String) (pos : Nat) : Span :=
  { filename := filename, start := pos, stop := pos }

/-- Diagnostic severities, from `ReportLevel` in src/report.rs. -/
inductive ReportLevel where
  | Silent
  | Error
  | Warn
  | Advice
deriving DecidableEq, Repr

/-- The only `ariadne::Color` the parser ever attaches to a label is `Blue`;
rendering is out of scope, the tag is kept for fidelity. -/
inductive LabelColor where
  | blue
deriving DecidableEq, Repr

/-- `Label` from src/report.rs: a span with an optional message and color. -/
structure Label where
  span : Span
  message : Option String
  color : Option LabelColor
deriving DecidableEq, Repr

/-- `Span::label()` (the `SpanToLabel` impl in src/report.rs). -/
def Span.label (s : Span) : Label :=
  { span := s, message := none, color := none }

/-- `Span::labeled(message)` from src/report.rs. -/
def Span.labeled (s : Span) (message : String) : Label :=
  { span := s, message := some message, color := none }

/-- `Label::with_color` from src/report.rs. -/
def Label.withColor (l : Label) (c : LabelColor) : Label :=
  { l with color := some c }

/-- A finished diagnostic `Report` from src/report.rs (builder and finished
report are merged: `finish` only repackages the same fields). -/
structure Report where
  level : ReportLevel
  title : String
  help : Option String
  note : Option String
  labels : List Label
deriving DecidableEq, Repr

/-- `ReportBuilder::with_label` (appends a label). -/
def Report.withLabel (r : Report) (l : Label) : Report :=
  { r with labels := r.labels ++ [l] }

/-- `ReportBuilder::with_note`. -/
def Report.withNote (r : Report) (n : String) : Report :=
  { r with note := some n }

/-- `TokenKind` from src/ast/token.rs. -/
inductive TokenKind where
  | And
  | Bang
  | BangEquals
  | BooleanLiteral
  | Colon
  | EOF
  | Equals
  | EqualsEquals
  | FloatLiteral
  | GreaterThan
  | GreaterThanEquals
  | Identifier
  | IntegerLiteralBin
  | IntegerLiteralDec
  | IntegerLiteralHex
  | IntegerLiteralOct
  | LeftParen
  | LessThan
  | LessThanEquals
  | Let
  | Minus
  | Or
  | Plus
  | Return
  | RightParen
  | Semicolon
  | Slash
  | Star
  | StringLiteral
deriving DecidableEq, Repr

/-- The `Display`/`Debug` rendering of a `TokenKind` (its variant name),
used inside diagnostic titles and messages. -/
def kindName : TokenKind → String
  | .And => "And"
  | .Bang => "Bang"
  | .BangEquals => "BangEquals"
  | .BooleanLiteral => "BooleanLiteral"
  | .Colon => "Colon"
  | .EOF => "EOF"
  | .Equals => "Equals"
  | .EqualsEquals => "EqualsEquals"
  | .FloatLiteral => "FloatLiteral"
  | .GreaterThan => "GreaterThan"
  | .GreaterThanEquals => "GreaterThanEquals"
  | .Identifier => "Identifier"
  | .IntegerLiteralBin => "IntegerLiteralBin"
  | .IntegerLiteralDec => "IntegerLiteralDec"
  | .IntegerLiteralHex => "IntegerLiteralHex"
  | .IntegerLiteralOct => "IntegerLiteralOct"
  | .LeftParen => "LeftParen"
  | .LessThan => "LessThan"
  | .LessThanEquals => "LessThanEquals"
  | .Let => "Let"
  | .Minus => "Minus"
  | .Or => "Or"
  | .Plus => "Plus"
  | .Return => "Return"
  | .RightParen => "RightParen"
  | .Semicolon => "Semicolon"
  | .Slash => "Slash"
  | .Star => "Star"
  | .StringLiteral => "StringLiteral"

/-- `Token` from src/ast/token.rs: kind, span, raw text, and the
newline-before flag used for statement termination inference. -/
structure Token where
  kind : TokenKind
  span : Span
  text : String
  newline_before : Bool
deriving DecidableEq, Repr

/-- `ParserError` from src/ast/parser.rs. -/
inductive ParserError where
  | SyntaxError (msg : String)
  | UnexpectedEOF
  | UnexpectedToken (kind : TokenKind)
deriving DecidableEq, Repr

/-- The `Display` impl of `ParserError` (variant name, then payload),
which `ReportKind::title` turns into the report title. -/
def ParserError.title : ParserError → String
  | .SyntaxError msg => "SyntaxError " ++ msg
  | .UnexpectedEOF => "UnexpectedEOF"
  | .UnexpectedToken k => "UnexpectedToken " ++ kindName k

/-- `ReportKind::make_labeled` for a `ParserError` (level is always `Error`). -/
def ParserError.makeLabeled (e : ParserError) (l : Label) : Report :=
  { level := .Error, title := e.title, help := none, note := none, labels := [l] }

/-- `Operator` from src/ast/mod.rs. -/
inductive Operator where
  | Or
  | And
  | Not
  | Plus
  | Minus
  | Star
  | Slash
  | GreaterThan
  | LessThan
  | GreaterThanEquals
  | LessThanEquals
  | Equals
  | BangEquals
deriving DecidableEq, Repr

/-- `Operator::is_compound` from src/ast/mod.rs. -/
def Operator.isCompound : Operator → Bool
  | .GreaterThan => true
  | .GreaterThanEquals => true
  | .LessThan => true
  | .LessThanEquals => true
  | _ => false

/-- `TokenKind::as_prefix` from src/ast/mod.rs: the prefix role
`(operator, (), right-binding-power)` of a token kind. -/
def TokenKind.prefixRole : TokenKind → Option (Operator × Unit × Nat)
  | .Plus => some (.Plus, (), 1)
  | .Minus => some (.Minus, (), 1)
  | .Bang => some (.Not, (), 2)
  | _ => none

/-- `TokenKind::as_infix` from src/ast/mod.rs: the infix role
`(operator, left-binding-power, right-binding-power)` of a token kind. -/
def TokenKind.infixRole : TokenKind → Option (Operator × Nat × Nat)
  | .Or => some (.Or, 1, 2)
  | .And => some (.And, 2, 3)
  | .EqualsEquals => some (.Equals, 3, 4)
  | .BangEquals => some (.BangEquals, 3, 4)
  | .GreaterThan => some (.GreaterThan, 3, 4)
  | .GreaterThanEquals => some (.GreaterThanEquals, 3, 4)
  | .LessThan => some (.LessThan, 3, 4)
  | .LessThanEquals => some (.LessThanEquals, 3, 4)
  | .Plus => some (.Plus, 4, 5)
  | .Minus => some (.Minus, 4, 5)
  | .Star => some (.Star, 5, 6)
  | .Slash => some (.Slash, 5, 6)
  | _ => none

/-- `TokenKind::as_postfix` from src/ast/mod.rs: always `None` (slot unused). -/
def TokenKind.postfixRole : TokenKind → Option (Operator × Nat × Unit) :=
  fun _ => none

/-- Rational stand-in for the `f64` payload of float literals; no claim
exercises float arithmetic or float parsing semantics. -/
abbrev FloatRep := Rat

mutual
/-- `NodeKind` from src/ast/mod.rs. -/
inductive NodeKind where
  | Return (expr : Node)
  | Block (stmts : List Node)
  | VarDeclaration (name : String) (expr : Node)
  | UnaryOperation (op : Operator) (expr : Node)
  | BinaryOperation (op : Operator) (lhs : Node) (rhs : Node)
  | Identifier (name : String)
  | StringLiteral (val : String)
  | FloatLiteral (val : FloatRep)
  | IntegerLiteral (val : Nat)
  | BooleanLiteral (val : Bool)

/-- `Node` from src/ast/mod.rs: a kind plus its span. -/
inductive Node where
  | mk (kind : NodeKind) (span : Span)
end

/-- The span component of a node. -/
def Node.span : Node → Span
  | .mk _ s => s

/-- The kind component of a node. -/
def Node.kind : Node → NodeKind
  | .mk k _ => k

/-- Replace a node's span (the parenthesized-atom case re-spans the inner
expression to include both delimiters). -/
def Node.withSpan : Node → Span → Node
  | .mk k _, s => .mk k s

/-- `char::to_digit` for the digits 0-9, a-z, A-Z, checked against the radix. -/
def digitVal (radix : Nat) (c : Char) : Option Nat :=
  let v :=
    if '0' ≤ c ∧ c ≤ '9' then some (c.toNat - Char.toNat '0')
    else if 'a' ≤ c ∧ c ≤ 'z' then some (c.toNat - Char.toNat 'a' + 10)
    else if 'A' ≤ c ∧ c ≤ 'Z' then some (c.toNat - Char.toNat 'A' + 10)
    else none
  match v with
  | some d => if d < radix then some d else none
  | none => none

/-- `usize::MAX + 1` on the 64-bit targets the compiler's wrapping cast is
specified against. -/
def usizeBound : Nat := 2 ^ 64

/-- Digit-accumulation core of `usize::from_str_radix`: fails on the first
invalid digit and on overflow past `usize::MAX` (Rust's checked
multiply/add against the word bound). -/
def fromStrRadixCore (radix : Nat) : List Char → Nat → Option Nat
  | [], acc => some acc
  | c :: cs, acc =>
    match digitVal radix c with
    | some d =>
      let acc' := acc * radix + d
      if acc' < usizeBound then fromStrRadixCore radix cs acc' else none
    | none => none

/-- `usize::from_str_radix(text, radix)`: an optional leading `+`, then at
least one digit of the radix; a `-` or any other non-digit is an error, as is
overflow past `usize::MAX`. -/
def fromStrRadix (s : String) (radix : Nat) : Option Nat :=
  match s.toList with
  | [] => none
  | '+' :: rest => if rest.isEmpty then none else fromStrRadixCore radix rest 0
  | cs => fromStrRadixCore radix cs 0

/-- Plain digit-list accumulation (no overflow cutoff); used to state what
numeric value a digit string denotes. -/
def digitsValue (radix : Nat) (cs : List Char) : Nat :=
  cs.foldl (fun acc c => acc * radix + ((digitVal radix c).getD 0)) 0

/-- Modelled from the spec: float literal parsing (`text.parse::<f64>()`;
src/vm/value.rs with the float semantics is not in the snapshot).  Floats are
modelled as exact rationals and only plain `digits[.digits]` forms are
recognized; no claim exercises float values. -/
def parseFloatRep (s : String) : Option FloatRep :=
  let parts := s.split (fun c => c = '.')
  let digits? : String → Option Nat := fun t =>
    if t.isEmpty then none
    else t.toList.foldl
      (fun acc? c => acc?.bind fun acc =>
        (digitVal 10 c).map fun d => acc * 10 + d) (some 0)
  match parts with
  | [i] => (digits? i).map fun n => (n : Rat)
  | [i, f] =>
    (digits? i).bind fun n =>
      (digits? f).map fun m => (n : Rat) + (m : Rat) / ((10 : Rat) ^ f.length)
  | _ => none

/-- `Base` from the lexer interface (the tag naming the radix of an integer
literal token), as printed inside the invalid-literal diagnostic. -/
inductive NumBase where
  | Binary
  | Octal
  | Decimal
  | Hexadecimal
deriving DecidableEq, Repr

/-- Debug rendering of `Base`. -/
def NumBase.name : NumBase → String
  | .Binary => "Binary"
  | .Octal => "Octal"
  | .Decimal => "Decimal"
  | .Hexadecimal => "Hexadecimal"

/-- Modelled from the spec: the token the parser sees once the lexer's
infinite EOF tail is reached (the parser assumes advancing past EOF is never
attempted; the fallback token keeps `psAdvance` total). -/
def eofFallback : Token :=
  { kind := .EOF, span := { filename := "", start := 0, stop := 0 }, text := "", newline_before := false }

/-- The parser's mutable cursor: the current token and the not-yet-consumed
tail of the token stream (lexer diagnostics are out of scope: the stream
holds only `Ok` tokens). -/
structure PState where
  current : Token
  rest : List Token
deriving DecidableEq, Repr

/-- `Parser::advance` specialised to an error-free token stream, with the
lexer's infinite EOF tail modelled by `eofFallback`. -/
def psAdvance (st : PState) : PState :=
  match st.rest with
  | t :: ts => { current := t, rest := ts }
  | [] => { current := eofFallback, rest := [] }

/-- `Parser::skip_until`: advance until the predicate holds or EOF is
reached (the predicate is checked before the EOF test, as in the source).
Returns the final cursor; the found-token return value is unused by `sync`. -/
def skipUntil (pred : Token → Bool) : Token → List Token → PState
  | cur, rest =>
    if pred cur then { current := cur, rest := rest }
    else if cur.kind = .EOF then { current := cur, rest := rest }
    else
      match rest with
      | t :: ts => skipUntil pred t ts
      | [] => { current := eofFallback, rest := [] }

/-- The stopping condition of `Parser::sync`: a statement separator, a token
preceded by a newline, or a token satisfying the caller's predicate (for
`parse_block`: the block's closing token). -/
def syncStop (closer : TokenKind) (t : Token) : Bool :=
  t.kind = .Semicolon || t.newline_before || t.kind = closer

/-- `Parser::sync` as invoked by `parse_block`: skip until `syncStop`, then
consume the separator if that is what the scan stopped at. -/
def sync (closer : TokenKind) (st : PState) : PState :=
  let st' := skipUntil (syncStop closer) st.current st.rest
  if st'.current.kind = .Semicolon then psAdvance st' else st'

/-- `Parser::consume`: the parser methods mutate the cursor in place, so
every outcome - success or error - is paired with the resulting cursor
state.  If the current token satisfies the predicate it is returned
(advancing unless it is EOF); otherwise an `UnexpectedEOF` or
`UnexpectedToken` report labelled with `message` is the error and the
cursor stays where it was. -/
def consume (st : PState) (pred : Token → Bool) (message : String) :
    Except Report Token × PState :=
  if pred st.current then
    (.ok st.current, if st.current.kind = .EOF then st else psAdvance st)
  else if st.current.kind = .EOF then
    (.error (ParserError.UnexpectedEOF.makeLabeled (st.current.span.labeled message)), st)
  else
    (.error ((ParserError.UnexpectedToken st.current.kind).makeLabeled
      (st.current.span.labeled message)), st)

/-- `Parser::consume_one`. -/
def consumeOne (st : PState) (expect : TokenKind) : Except Report Token × PState :=
  consume st (fun t => t.kind = expect) ("Expected " ++ kindName expect)

/-- `Parser::consume_line_or`: accept a semicolon (consuming it), EOF, a
newline-preceded token, or the expected closer; anything else is an
`UnexpectedToken` error, with the cursor unmoved. -/
def consumeLineOr (st : PState) (expect : TokenKind) : Except Report Unit × PState :=
  if st.current.kind = .Semicolon then (.ok (), psAdvance st)
  else if st.current.kind = .EOF then (.ok (), st)
  else if st.current.newline_before || st.current.kind = expect then (.ok (), st)
  else
    (.error ((ParserError.UnexpectedToken st.current.kind).makeLabeled
      (st.current.span.labeled ("Expected end of statement or " ++ kindName expect))), st)

/-- `CharIndices`: the characters of a string paired with their byte
offsets, as Rust's `str::char_indices` yields them. -/
def charIndicesFrom (i : Nat) : List Char → List (Nat × Char)
  | [] => []
  | c :: cs => (i, c) :: charIndicesFrom (i + c.utf8Size) cs

/-- The state of `StringParser` from src/ast/parser.rs: the token span, the
raw token text (the literal body), the current character with its byte
index, and the pending tail of `char_indices`. -/
structure SPState where
  span : Span
  source : String
  curChar : Option Char
  curIndex : Nat
  rest : List (Nat × Char)
deriving DecidableEq, Repr

/-- `StringParser::advance`: step to the next `(index, char)` pair; past the
end the character becomes `None` and the index keeps incrementing. -/
def spAdvance (st : SPState) : SPState :=
  match st.rest with
  | (i, c) :: tl => { st with curChar := some c, curIndex := i, rest := tl }
  | [] => { st with curChar := none, curIndex := st.curIndex + 1 }

/-- `StringParser::new`: seed the iterator and advance once. -/
def spNew (source : String) (span : Span) : SPState :=
  spAdvance
    { span := span, source := source, curChar := none, curIndex := 0,
      rest := charIndicesFrom 0 source.toList }

/-- `StringParser::span(start, end)`: offsets inside the literal body are
shifted by `span.start + 1` so they land on the corresponding characters of
the original source buffer. -/
def spSpan (st : SPState) (start stop : Nat) : Span :=
  { filename := st.span.filename, start := st.span.start + start + 1,
    stop := st.span.start + stop + 1 }

/-- `StringParser::span_from(start)`. -/
def spSpanFrom (st : SPState) (start : Nat) : Span :=
  spSpan st start st.curIndex

/-- `StringParser::span_at(start)`. -/
def spSpanAt (st : SPState) (start : Nat) : Span :=
  Span.at st.span.filename (st.span.start + start + 1)

/-- The slice `source[a..b]` by byte offsets (only ever applied to the
all-ASCII hex-digit run of a unicode escape). -/
def spSlice (st : SPState) (a b : Nat) : String :=
  String.mk (((charIndicesFrom 0 st.source.toList).filter
    (fun p => a ≤ p.fst ∧ p.fst < b)).map Prod.snd)

/-- The four-iteration hex-digit scan of a `\uXXXX` escape: advances over
hex digits, failing with the source's two span-precise reports on a non-hex
character or on running out of input. -/
def spHexScan : Nat → SPState → Nat → Except Report SPState
  | 0, st, _ => .ok st
  | n + 1, st, codeStart =>
    match st.curChar with
    | some c =>
      if ('0' ≤ c ∧ c ≤ '9') ∨ ('a' ≤ c ∧ c ≤ 'f') ∨ ('A' ≤ c ∧ c ≤ 'F') then
        spHexScan n (spAdvance st) codeStart
      else
        .error (((ParserError.SyntaxError
            ("Unexpected character " ++ c.toString ++ " for escape code")).makeLabeled
          ((spSpanAt st st.curIndex).labeled "here")).withLabel
          ((spSpanFrom st codeStart).label.withColor .blue))
    | none =>
      .error (((ParserError.SyntaxError "Unexpected end of string.").makeLabeled
        ((spSpanAt st st.curIndex).labeled "here")).withLabel
        ((spSpanFrom st codeStart).label.withColor .blue))

/-- UTF-16 surrogate test: `char::decode_utf16` on a single code unit fails
exactly on an unpaired surrogate. -/
def isSurrogate (v : Nat) : Bool :=
  0xD800 ≤ v ∧ v < 0xE000

/-- `StringParser::parse` from src/ast/parser.rs, fuel-recursive over the
literal body.  `none` models the `expect` panic on a hanging escape (which
the lexer is documented never to produce); every other outcome is the
source's `Maybe<String>`. -/
def spParse : Nat → SPState → String → Option (Except Report String)
  | 0, _, _ => none
  | fuel + 1, st, buf =>
    match st.curChar with
    | none => some (.ok buf)
    | some ch =>
      let start := st.curIndex
      if ch = '\\' then
        let st := spAdvance st
        match st.curChar with
        | none => none
        | some escaped =>
          let st := spAdvance st
          if escaped = '\\' ∨ escaped = '\'' ∨ escaped = '"' then
            spParse fuel st (buf.push escaped)
          else if escaped = 'n' then spParse fuel st (buf.push '\n')
          else if escaped = 'r' then spParse fuel st (buf.push '\r')
          else if escaped = 't' then spParse fuel st (buf.push '\t')
          else if escaped = 'b' then spParse fuel st (buf.push (Char.ofNat 8))
          else if escaped = 'f' then spParse fuel st (buf.push (Char.ofNat 12))
          else if escaped = '0' then spParse fuel st (buf.push (Char.ofNat 0))
          else if escaped = 'u' then
            let codeStart := st.curIndex
            match spHexScan 4 st codeStart with
            | .error r => some (.error r)
            | .ok st' =>
              let codeSpan := spSpan st' codeStart st'.curIndex
              let codeText := spSlice st' codeStart st'.curIndex
              match fromStrRadix codeText 16 with
              | none =>
                some (.error
                  (((ParserError.SyntaxError
                      ("Invalid Unicode Escape Sequence: " ++ codeText)).makeLabeled
                    (codeSpan.labeled "invalid digit found in string")).withLabel
                    (st'.span.label.withColor .blue)))
              | some v =>
                if isSurrogate v then
                  some (.error
                    (((ParserError.SyntaxError
                        ("Invalid Unicode Escape Sequence: " ++ codeText)).makeLabeled
                      codeSpan.label).withLabel
                      (st'.span.label.withColor .blue)))
                else
                  spParse fuel st' (buf.push (Char.ofNat v))
          else
            some (.error
              (((ParserError.SyntaxError
                  ("Invalid Escape Character: " ++ escaped.toString)).makeLabeled
                (spSpanAt st start).label).withLabel
                (st.span.label.withColor .blue)))
      else
        spParse fuel (spAdvance st) (buf.push ch)

/-- Run the escape sub-parser on a string-literal token's body and span,
with fuel ample for its length. -/
def stringParse (text : String) (span : Span) : Option (Except Report String) :=
  spParse (text.length + 1) (spNew text span) ""

/-- The report standing for exhausted recursion fuel; never produced on any
input whose fuel is at least `parseFuel` of the token list. -/
def fuelReport : Report :=
  { level := .Error, title := "InternalFuelExhausted", help := none, note := none, labels := [] }

/-- `NodeKind::make`: wrap a kind with its span. -/
def NodeKind.make (k : NodeKind) (s : Span) : Node := .mk k s

mutual

/-- `Parser::parse_expression` from src/ast/parser.rs: precedence climbing.
A token with a prefix role is consumed and its operand parsed at the
prefix's right binding power; otherwise an atom is parsed; then the infix
loop folds left-associatively.  Errors carry the error-point cursor, as the
source's `&mut self` does. -/
def parseExpression : Nat → Nat → PState → Except Report Node × PState
  | 0, _, st => (.error fuelReport, st)
  | fuel + 1, minBp, st =>
    match st.current.kind.prefixRole with
    | some (op, _, rbp) =>
      let sp := st.current.span
      let st := psAdvance st
      match parseExpression fuel rbp st with
      | (.error r, st) => (.error r, st)
      | (.ok rhs, st) =>
        parseInfixLoop fuel minBp
          (NodeKind.make (.UnaryOperation op rhs) (sp.extend rhs.span)) st
    | none =>
      match parseAtom fuel st with
      | (.error r, st) => (.error r, st)
      | (.ok lhs, st) => parseInfixLoop fuel minBp lhs st

/-- The `loop` of `Parser::parse_expression`: the (always absent) postfix
role is tried first, then an infix role folds a `BinaryOperation` while its
left binding power is at least the minimum. -/
def parseInfixLoop : Nat → Nat → Node → PState → Except Report Node × PState
  | 0, _, _, st => (.error fuelReport, st)
  | fuel + 1, minBp, lhs, st =>
    match st.current.kind.postfixRole with
    | some (op, lbp, _) =>
      if lbp < minBp then (.ok lhs, st)
      else
        let sp := st.current.span
        let st := psAdvance st
        parseInfixLoop fuel minBp (NodeKind.make (.UnaryOperation op lhs) sp) st
    | none =>
      match st.current.kind.infixRole with
      | none => (.ok lhs, st)
      | some (op, lbp, rbp) =>
        if lbp < minBp then (.ok lhs, st)
        else
          let st := psAdvance st
          match parseExpression fuel rbp st with
          | (.error r, st) => (.error r, st)
          | (.ok rhs, st) =>
            parseInfixLoop fuel minBp
              (NodeKind.make (.BinaryOperation op lhs rhs) (lhs.span.extend rhs.span)) st

/-- `Parser::parse_atom` from src/ast/parser.rs.  Every literal arm
advances past its token before inspecting the text, so a literal that fails
to parse leaves the cursor after the token; the catch-all arm likewise
advances and then errors. -/
def parseAtom : Nat → PState → Except Report Node × PState
  | 0, st => (.error fuelReport, st)
  | fuel + 1, st =>
    let tok := st.current
    match tok.kind with
    | .LeftParen =>
      let st := psAdvance st
      match parseExpression fuel 0 st with
      | (.error r, st) => (.error r, st)
      | (.ok expr, st) =>
        match consumeOne st .RightParen with
        | (.error r, st) => (.error r, st)
        | (.ok closeTok, st) =>
          (.ok (expr.withSpan (tok.span.extend closeTok.span)), st)
    | .Identifier =>
      (.ok (NodeKind.make (.Identifier tok.text) tok.span), psAdvance st)
    | .StringLiteral =>
      let st := psAdvance st
      match stringParse tok.text tok.span with
      | some (.ok s) => (.ok (NodeKind.make (.StringLiteral s) tok.span), st)
      | some (.error r) => (.error r, st)
      | none =>
        -- the source panics here ("Lexer left a hanging escape"); the lexer
        -- never produces such a token, so this branch is unreachable
        (.error fuelReport, st)
    | .BooleanLiteral =>
      (.ok (NodeKind.make (.BooleanLiteral (tok.text = "True")) tok.span), psAdvance st)
    | .FloatLiteral =>
      let st := psAdvance st
      match parseFloatRep tok.text with
      | some v => (.ok (NodeKind.make (.FloatLiteral v) tok.span), st)
      | none =>
        (.error (((ParserError.SyntaxError "Invalid Float Literal").makeLabeled
          tok.span.label).withNote "invalid float literal"), st)
    | .IntegerLiteralBin =>
      let st := psAdvance st
      match fromStrRadix tok.text 2 with
      | some v => (.ok (NodeKind.make (.IntegerLiteral v) tok.span), st)
      | none =>
        (.error (((ParserError.SyntaxError
          ("Invalid " ++ NumBase.Binary.name ++ " Integer literal")).makeLabeled
          tok.span.label).withNote "number parse failure"), st)
    | .IntegerLiteralOct =>
      let st := psAdvance st
      match fromStrRadix tok.text 8 with
      | some v => (.ok (NodeKind.make (.IntegerLiteral v) tok.span), st)
      | none =>
        (.error (((ParserError.SyntaxError
          ("Invalid " ++ NumBase.Octal.name ++ " Integer literal")).makeLabeled
          tok.span.label).withNote "number parse failure"), st)
    | .IntegerLiteralDec =>
      let st := psAdvance st
      match fromStrRadix tok.text 10 with
      | some v => (.ok (NodeKind.make (.IntegerLiteral v) tok.span), st)
      | none =>
        (.error (((ParserError.SyntaxError
          ("Invalid " ++ NumBase.Decimal.name ++ " Integer literal")).makeLabeled
          tok.span.label).withNote "number parse failure"), st)
    | .IntegerLiteralHex =>
      let st := psAdvance st
      match fromStrRadix tok.text 16 with
      | some v => (.ok (NodeKind.make (.IntegerLiteral v) tok.span), st)
      | none =>
        (.error (((ParserError.SyntaxError
          ("Invalid " ++ NumBase.Hexadecimal.name ++ " Integer literal")).makeLabeled
          tok.span.label).withNote "number parse failure"), st)
    | .EOF =>
      (.error (ParserError.UnexpectedEOF.makeLabeled
        (tok.span.labeled "Expected an expression")), st)
    | k =>
      -- catch-all: advance, then report the unexpected token
      let st := psAdvance st
      ((.error ((ParserError.UnexpectedToken k).makeLabeled tok.span.label)), st)

end

/-- `Parser::parse_statement` from src/ast/parser.rs; an error result
carries the cursor exactly where the failing step left it. -/
def parseStatement (fuel : Nat) (st : PState) : Except Report Node × PState :=
  let tok := st.current
  match tok.kind with
  | .Return =>
    let st := psAdvance st
    match parseExpression fuel 0 st with
    | (.error r, st) => (.error r, st)
    | (.ok expr, st) => (.ok (NodeKind.make (.Return expr) tok.span), st)
  | .Let =>
    let st := psAdvance st
    match consumeOne st .Identifier with
    | (.error r, st) => (.error r, st)
    | (.ok identTok, st) =>
      match consumeOne st .Equals with
      | (.error r, st) => (.error r, st)
      | (.ok _, st) =>
        match parseExpression fuel 0 st with
        | (.error r, st) => (.error r, st)
        | (.ok expr, st) =>
          (.ok (NodeKind.make (.VarDeclaration identTok.text expr)
            (tok.span.extend expr.span)), st)
  | _ => parseExpression fuel 0 st

/-- The `while` loop of `Parser::parse_block`: parse statements until the
closer or EOF, reporting (appending to the report list) and
resynchronizing on errors; `sync` starts from the cursor state the failing
statement left behind (the source calls `self.sync` on the mutated
parser); a statement is kept only when its terminator is accepted. -/
def parseBlockLoop : Nat → TokenKind → PState → List Node → List Report →
    PState × List Node × List Report
  | 0, _, st, stmts, reports => (st, stmts, reports)
  | fuel + 1, closer, st, stmts, reports =>
    if st.current.kind = closer ∨ st.current.kind = .EOF then (st, stmts, reports)
    else
      match parseStatement fuel st with
      | (.ok stmt, st') =>
        match consumeLineOr st' closer with
        | (.ok _, st'') => parseBlockLoop fuel closer st'' (stmts ++ [stmt]) reports
        | (.error r, st'') =>
          parseBlockLoop fuel closer (sync closer st'') stmts (reports ++ [r])
      | (.error r, st') =>
        parseBlockLoop fuel closer (sync closer st') stmts (reports ++ [r])

/-- `Parser::parse_block`: run the statement loop, then demand the closer;
failing to find it is the only unrecoverable outcome. -/
def parseBlock (fuel : Nat) (start : Span) (closer : TokenKind) (st : PState)
    (reports : List Report) : Except Report Node × PState × List Report :=
  match parseBlockLoop fuel closer st [] reports with
  | (st, stmts, reports) =>
    match consumeOne st closer with
    | (.error r, st) => (.error r, st, reports)
    | (.ok closeTok, st) =>
      (.ok (NodeKind.make (.Block stmts) (start.extend closeTok.span)), st, reports)

/-- Ample fuel for a token list: every parser step that spends fuel also
consumes a token or is nested below one that does. -/
def parseFuel (tokens : List Token) : Nat := 4 * tokens.length + 16

/-- `Parser::parse` / `parse_program`: parse the top-level block with EOF as
its closer.  `none` models the `panic!("Failed to parse global block.")` on
an unrecoverable parse failure; otherwise the root node is returned together
with the diagnostics reported along the way. -/
def parseProgram (tokens : List Token) : Option (Node × List Report) :=
  match tokens with
  | [] => none
  | t :: ts =>
    match parseBlock (parseFuel tokens) t.span .EOF { current := t, rest := ts } [] with
    | (.error _, _, _) => none
    | (.ok node, _, reports) => some (node, reports)

/-- Convenience harness used by the expression-level claims: run
`parse_expression` at minimum binding power 0 on a token list. -/
def parseExprToks (tokens : List Token) : Option Node :=
  match tokens with
  | [] => none
  | t :: ts =>
    match parseExpression (parseFuel tokens) 0 { current := t, rest := ts } with
    | (.error _, _) => none
    | (.ok node, _) => some node

/-- Runtime-fault payload of the VM's result-based error path (`VMError`
wraps a message string; src/vm/value.rs is not in the snapshot, messages
follow the spec's taxonomy). -/
abbrev VMErr := String

/-- `Value` from src/vm/value.rs (not in the snapshot); tags modelled from
the spec: signed-word integer, float (as rational), boolean, owned text,
and the empty value. -/
inductive Value where
  | Integer (v : Int)
  | Float (v : FloatRep)
  | Boolean (v : Bool)
  | String (v : String)
  | None
deriving DecidableEq, Repr

/-- Modelled from the spec: `Value::add` is defined for Integer/Integer,
Float/Float, and String/String (concatenation); any other tag pair is a
runtime type error. -/
def Value.add : Value → Value → Except VMErr Value
  | .Integer a, .Integer b => .ok (.Integer (a + b))
  | .Float a, .Float b => .ok (.Float (a + b))
  | .String a, .String b => .ok (.String (a ++ b))
  | _, _ => .error "unsupported operand types for add"

/-- Modelled from the spec: `Value::sub` for same-tagged numeric pairs. -/
def Value.sub : Value → Value → Except VMErr Value
  | .Integer a, .Integer b => .ok (.Integer (a - b))
  | .Float a, .Float b => .ok (.Float (a - b))
  | _, _ => .error "unsupported operand types for sub"

/-- Modelled from the spec: `Value::mul` for same-tagged numeric pairs. -/
def Value.mul : Value → Value → Except VMErr Value
  | .Integer a, .Integer b => .ok (.Integer (a * b))
  | .Float a, .Float b => .ok (.Float (a * b))
  | _, _ => .error "unsupported operand types for mul"

/-- Modelled from the spec: `Value::div` for same-tagged numeric pairs
(integer division truncates toward zero as Rust's does; the spec leaves
division by zero unspecified and no claim exercises it). -/
def Value.div : Value → Value → Except VMErr Value
  | .Integer a, .Integer b => .ok (.Integer (Int.tdiv a b))
  | .Float a, .Float b => .ok (.Float (a / b))
  | _, _ => .error "unsupported operand types for div"

/-- Modelled from the spec: `Value::lt`, ordering only for Integer/Integer
and Float/Float. -/
def Value.lt : Value → Value → Except VMErr Value
  | .Integer a, .Integer b => .ok (.Boolean (decide (a < b)))
  | .Float a, .Float b => .ok (.Boolean (decide (a < b)))
  | _, _ => .error "unsupported operand types for lt"

/-- Modelled from the spec: `Value::gt`, ordering only for Integer/Integer
and Float/Float. -/
def Value.gt : Value → Value → Except VMErr Value
  | .Integer a, .Integer b => .ok (.Boolean (decide (b < a)))
  | .Float a, .Float b => .ok (.Boolean (decide (b < a)))
  | _, _ => .error "unsupported operand types for gt"

/-- Modelled from the spec: `Value::equals` is defined across all tags;
same-tag pairs compare their payloads and cross-tag equality is always
false, never an error. -/
def Value.equals : Value → Value → Except VMErr Value
  | .Integer a, .Integer b => .ok (.Boolean (decide (a = b)))
  | .Float a, .Float b => .ok (.Boolean (decide (a = b)))
  | .Boolean a, .Boolean b => .ok (.Boolean (a = b))
  | .String a, .String b => .ok (.Boolean (a = b))
  | .None, .None => .ok (.Boolean true)
  | _, _ => .ok (.Boolean false)

/-- Modelled from the spec: `Value::and` operates only on Booleans,
evaluated eagerly. -/
def Value.and : Value → Value → Except VMErr Value
  | .Boolean a, .Boolean b => .ok (.Boolean (a && b))
  | _, _ => .error "unsupported operand types for and"

/-- Modelled from the spec: `Value::or` operates only on Booleans. -/
def Value.or : Value → Value → Except VMErr Value
  | .Boolean a, .Boolean b => .ok (.Boolean (a || b))
  | _, _ => .error "unsupported operand types for or"

/-- Modelled from the spec: `Value::not` operates only on Boolean. -/
def Value.not : Value → Except VMErr Value
  | .Boolean a => .ok (.Boolean (Bool.not a))
  | _ => .error "unsupported operand type for not"

/-- `OpCode` from src/vm/bytecode.rs (not in the snapshot); the variant set
is exactly the one `VM::run_op`'s exhaustive match handles. -/
inductive OpCode where
  | Const
  | Add
  | Sub
  | Mul
  | Div
  | Less
  | Greater
  | Equal
  | And
  | Or
  | Not
  | Return
deriving DecidableEq, Repr

/-- One entry of a chunk's byte stream: an opcode byte or the fixed-width
constant-pool index that follows a `Const`. -/
inductive ChunkItem where
  | op (o : OpCode)
  | idx (n : Nat)
deriving DecidableEq, Repr

/-- Modelled from the spec: `Chunk` (src/vm/bytecode.rs is not in the
snapshot) is an append-only opcode stream interleaved with constant-pool
indices, plus the ordered constant pool. -/
structure Chunk where
  source : List ChunkItem
  constants : List Value
deriving DecidableEq, Repr

/-- `Chunk::new`. -/
def Chunk.new : Chunk := { source := [], constants := [] }

/-- Modelled from the spec: `Chunk::write_op` appends one opcode. -/
def Chunk.write_op (c : Chunk) (o : OpCode) : Chunk :=
  { c with source := c.source ++ [.op o] }

/-- Modelled from the spec: `Chunk::write_const` stores the value at the end
of the pool and appends `Const` followed by the new pool index. -/
def Chunk.write_const (c : Chunk) (v : Value) : Chunk :=
  { source := c.source ++ [.op .Const, .idx c.constants.length],
    constants := c.constants ++ [v] }

/-- The `as isize` wrapping cast applied by the compiler to an integer
literal's parsed `usize` value (64-bit words). -/
def usizeAsIsize (v : Nat) : Int :=
  let m := v % usizeBound
  if m < 2 ^ 63 then (m : Int) else (m : Int) - (usizeBound : Int)

/-- The first opcode `Compiler::compile` emits for a binary operator
(the `match op` of src/vm/compiler.rs lines 46-60); `none` is the
`unreachable!()` arm. -/
def binOpcodeFor : Operator → Option OpCode
  | .Plus => some .Add
  | .Minus => some .Sub
  | .Star => some .Mul
  | .Slash => some .Div
  | .Or => some .Or
  | .And => some .And
  | .GreaterThan => some .Greater
  | .LessThan => some .Less
  | .GreaterThanEquals => some .Less
  | .LessThanEquals => some .Greater
  | .Equals => some .Equal
  | .BangEquals => some .Equal
  | .Not => none

/-- The second `match op` of src/vm/compiler.rs (lines 61-66): the three
compound comparisons additionally emit a `Not`. -/
def emitsNotAfter : Operator → Bool
  | .GreaterThanEquals => true
  | .LessThanEquals => true
  | .BangEquals => true
  | _ => false

/-- `Compiler::compile` from src/vm/compiler.rs, with the chunk threaded as
explicit state; `none` models the `unimplemented!`/`unreachable!` panics on
not-yet-lowerable constructs. -/
def Compiler.compile : Node → Chunk → Option Chunk
  | .mk (.Return val) _, ch =>
    (Compiler.compile val ch).map fun c => c.write_op .Return
  | .mk (.Block _) _, _ => none
  | .mk (.VarDeclaration _ _) _, _ => none
  | .mk (.UnaryOperation op val) _, ch =>
    (Compiler.compile val ch).bind fun c =>
      match op with
      | .Not => some (c.write_op .Not)
      | _ => none
  | .mk (.BinaryOperation op lhs rhs) _, ch =>
    (Compiler.compile lhs ch).bind fun c1 =>
      (Compiler.compile rhs c1).bind fun c2 =>
        match binOpcodeFor op with
        | some oc =>
          some (if emitsNotAfter op then (c2.write_op oc).write_op .Not
                else c2.write_op oc)
        | none => none
  | .mk (.Identifier _) _, _ => none
  | .mk (.StringLiteral val) _, ch => some (ch.write_const (.String val))
  | .mk (.FloatLiteral val) _, ch => some (ch.write_const (.Float val))
  | .mk (.IntegerLiteral val) _, ch => some (ch.write_const (.Integer (usizeAsIsize val)))
  | .mk (.BooleanLiteral val) _, ch => some (ch.write_const (.Boolean val))

/-- `Compiler::compile_program`: destructure the root `Block` and compile
each statement in order into one chunk. -/
def compileProgram (program : Node) : Option Chunk :=
  match program with
  | .mk (.Block stmts) _ => stmts.foldlM (fun ch stmt => Compiler.compile stmt ch) Chunk.new
  | _ => none

/-- The binary `Value` operation `VM::run_op` dispatches for an opcode
(lines 74-82 of src/vm/mod.rs); `none` for the non-binary opcodes. -/
def OpCode.binFn : OpCode → Option (Value → Value → Except VMErr Value)
  | .Add => some Value.add
  | .Sub => some Value.sub
  | .Mul => some Value.mul
  | .Div => some Value.div
  | .Less => some Value.lt
  | .Greater => some Value.gt
  | .Equal => some Value.equals
  | .And => some Value.and
  | .Or => some Value.or
  | _ => none

/-- `VM::run` from src/vm/mod.rs, recursing over the not-yet-executed tail
of the opcode stream with the constant pool `K` fixed.  The operand stack
grows at the head.  Outcomes: `some (.ok v)` - normal termination with value
`v` (a `Return`, or the stream ran out); `some (.error e)` - a `Value`
operation failed and `run` returns the error to its caller; `none` - a panic
(a stack-pop `unwrap` on an empty stack, an out-of-range or misaligned
constant read, or `run_op` on `Return`, which the source marks
`unimplemented!`). -/
def runLoop (K : List Value) : List ChunkItem → List Value → Option (Except VMErr Value)
  | [], _ => some (.ok .None)
  | .idx _ :: _, _ => none
  | .op .Return :: _, stack => some (.ok (stack.headD .None))
  | .op .Const :: .idx n :: rest, stack =>
    (match K[n]? with
     | some v => runLoop K rest (v :: stack)
     | none => none)
  | .op .Const :: .op _ :: _, _ => none
  | [.op .Const], _ => none
  | .op o :: rest, stack =>
    match o.binFn with
    | some f =>
      match stack with
      | rhs :: lhs :: stack' =>
        (match f lhs rhs with
         | .ok v => runLoop K rest (v :: stack')
         | .error e => some (.error e))
      | _ => none
    | none =>
      -- Return and Const are matched above, so this is the unary `Not`
      match stack with
      | v :: stack' =>
        (match Value.not v with
         | .ok r => runLoop K rest (r :: stack')
         | .error e => some (.error e))
      | [] => none

/-- `VM::run` on a whole chunk, from instruction pointer 0 and an empty
stack. -/
def vmRun (chunk : Chunk) : Option (Except VMErr Value) :=
  runLoop chunk.constants chunk.source []

/-- Test-harness token builder: kind, raw text, and an explicit span. -/
def tokSp (k : TokenKind) (text : String) (a b : Nat) (nb : Bool := false) : Token :=
  { kind := k, span := { filename := "t", start := a, stop := b }, text := text,
    newline_before := nb }

/-- An integer-literal node at an explicit span, as the parser builds it. -/
def intNode (v : Nat) (a b : Nat) : Node :=
  NodeKind.make (.IntegerLiteral v) { filename := "t", start := a, stop := b }

/-- The twelve token kinds carrying an infix role. -/
def infixKinds : List TokenKind :=
  [.Or, .And, .EqualsEquals, .BangEquals, .GreaterThan, .GreaterThanEquals,
   .LessThan, .LessThanEquals, .Plus, .Minus, .Star, .Slash]

/-- The infix binding-power table exactly as the specification states it:
Or=(1,2), And=(2,3), the six equality/relational operators=(3,4),
Plus/Minus=(4,5), Star/Slash=(5,6).  Stated from the spec's words, to be
compared with `TokenKind.infixRole` from the source. -/
def specInfixTable : TokenKind → Option (Operator × Nat × Nat)
  | .Or => some (.Or, 1, 2)
  | .And => some (.And, 2, 3)
  | .EqualsEquals => some (.Equals, 3, 4)
  | .BangEquals => some (.BangEquals, 3, 4)
  | .GreaterThan => some (.GreaterThan, 3, 4)
  | .GreaterThanEquals => some (.GreaterThanEquals, 3, 4)
  | .LessThan => some (.LessThan, 3, 4)
  | .LessThanEquals => some (.LessThanEquals, 3, 4)
  | .Plus => some (.Plus, 4, 5)
  | .Minus => some (.Minus, 4, 5)
  | .Star => some (.Star, 5, 6)
  | .Slash => some (.Slash, 5, 6)
  | _ => none

/-- The token stream for `1 OP1 2 OP2 3`: literals at offsets 0, 4, 8 and
the operators at offsets 2, 6. -/
def pairToks (k1 k2 : TokenKind) : List Token :=
  [tokSp .IntegerLiteralDec "1" 0 1, tokSp k1 "" 2 3, tokSp .IntegerLiteralDec "2" 4 5,
   tokSp k2 "" 6 7, tokSp .IntegerLiteralDec "3" 8 9, tokSp .EOF "" 9 10]

/-- The tree `1 OP1 (2 OP2 3)` over the `pairToks` stream, with the spans
the parser assigns. -/
def rightNested (o1 o2 : Operator) : Node :=
  NodeKind.make
    (.BinaryOperation o1 (intNode 1 0 1)
      (NodeKind.make (.BinaryOperation o2 (intNode 2 4 5) (intNode 3 8 9))
        { filename := "t", start := 4, stop := 9 }))
    { filename := "t", start := 0, stop := 9 }

/-- The tree `(1 OP1 2) OP2 3` over the `pairToks` stream. -/
def leftNested (o1 o2 : Operator) : Node :=
  NodeKind.make
    (.BinaryOperation o2
      (NodeKind.make (.BinaryOperation o1 (intNode 1 0 1) (intNode 2 4 5))
        { filename := "t", start := 0, stop := 5 })
      (intNode 3 8 9))
    { filename := "t", start := 0, stop := 9 }

/-- The tree the spec's precedence rule predicts for `1 OP1 2 OP2 3`: the
operator with the higher binding power binds tighter, operators of the same
tier associate to the left.  Stated from the spec's words via
`specInfixTable`. -/
def pairExpected (k1 k2 : TokenKind) : Option Node :=
  match specInfixTable k1, specInfixTable k2 with
  | some (o1, l1, _), some (o2, l2, _) =>
    some (if l1 < l2 then rightNested o1 o2 else leftNested o1 o2)
  | _, _ => none

/-- The token stream of `not true and false`. -/
def notAndToks : List Token :=
  [tokSp .Bang "not" 0 3, tokSp .BooleanLiteral "true" 4 8, tokSp .And "and" 9 12,
   tokSp .BooleanLiteral "false" 13 18, tokSp .EOF "" 18 18]

/-- The tree the parser actually produces for `not true and false`:
`not (true and false)`. -/
def notAndActual : Node :=
  NodeKind.make
    (.UnaryOperation .Not
      (NodeKind.make
        (.BinaryOperation .And
          (NodeKind.make (.BooleanLiteral false) { filename := "t", start := 4, stop := 8 })
          (NodeKind.make (.BooleanLiteral false) { filename := "t", start := 13, stop := 18 }))
        { filename := "t", start := 4, stop := 18 }))
    { filename := "t", start := 0, stop := 18 }

/-- The tree the claim predicts for `not true and false`:
`(not true) and false`, with the spans that shape would carry. -/
def notAndClaimed : Node :=
  NodeKind.make
    (.BinaryOperation .And
      (NodeKind.make
        (.UnaryOperation .Not
          (NodeKind.make (.BooleanLiteral false) { filename := "t", start := 4, stop := 8 }))
        { filename := "t", start := 0, stop := 8 })
      (NodeKind.make (.BooleanLiteral false) { filename := "t", start := 13, stop := 18 }))
    { filename := "t", start := 0, stop := 18 }

/-- The token stream of the malformed-then-valid program `let = ; 1`. -/
def recoveryToks : List Token :=
  [tokSp .Let "let" 0 3, tokSp .Equals "=" 4 5, tokSp .Semicolon ";" 5 6,
   tokSp .IntegerLiteralDec "1" 7 8, tokSp .EOF "" 8 8]

/-- The root block the parser recovers for `let = ; 1`: the valid trailing
statement survives. -/
def recoveryNode : Node :=
  NodeKind.make (.Block [intNode 1 7 8]) { filename := "t", start := 0, stop := 8 }

/-- The single diagnostic attributed to the malformed `let = ;` statement. -/
def recoveryReport : Report :=
  (ParserError.UnexpectedToken .Equals).makeLabeled
    (Span.labeled { filename := "t", start := 4, stop := 5 } "Expected Identifier")

/-- The token stream of `let x = ; 2`: the `let` statement consumes its
identifier and `=` and then fails inside `parse_atom` at the semicolon,
which the catch-all arm consumes before erroring. -/
def recovery2Toks : List Token :=
  [tokSp .Let "let" 0 3, tokSp .Identifier "x" 4 5, tokSp .Equals "=" 6 7,
   tokSp .Semicolon ";" 8 9, tokSp .IntegerLiteralDec "2" 10 11, tokSp .EOF "" 11 11]

/-- The root block the parser produces for `let x = ; 2`: resynchronization
starts from the cursor after the consumed semicolon, so the trailing `2` is
skipped and the block is empty. -/
def recovery2Node : Node :=
  NodeKind.make (.Block []) { filename := "t", start := 0, stop := 11 }

/-- The diagnostic for `let x = ; 2`: `parse_atom`'s catch-all reports the
unexpected semicolon. -/
def recovery2Report : Report :=
  (ParserError.UnexpectedToken .Semicolon).makeLabeled
    (Span.label { filename := "t", start := 8, stop := 9 })

/-- The token stream of a file whose statements sit on their own lines:
`\nlet = ;\n1` - the `let` and the `1` are newline-preceded. -/
def recovery3Toks : List Token :=
  [tokSp .Let "let" 1 4 true, tokSp .Equals "=" 5 6, tokSp .Semicolon ";" 6 7,
   tokSp .IntegerLiteralDec "1" 8 9 true, tokSp .EOF "" 9 9]

/-- The root block recovered for the newline-separated `let = ;` then `1`:
the valid trailing statement survives. -/
def recovery3Node : Node :=
  NodeKind.make (.Block [intNode 1 8 9]) { filename := "t", start := 1, stop := 9 }

/-- The single diagnostic for the newline-separated malformed `let = ;`. -/
def recovery3Report : Report :=
  (ParserError.UnexpectedToken .Equals).makeLabeled
    (Span.labeled { filename := "t", start := 5, stop := 6 } "Expected Identifier")

/-- The expression forms `Compiler::compile` can lower: literals, unary
`Not`, and binary operations (every operator the binary match handles, i.e.
all but `Not`). -/
inductive LowerExpr : Node → Prop
  | str : ∀ s sp, LowerExpr (.mk (.StringLiteral s) sp)
  | float : ∀ v sp, LowerExpr (.mk (.FloatLiteral v) sp)
  | int : ∀ v sp, LowerExpr (.mk (.IntegerLiteral v) sp)
  | bool : ∀ b sp, LowerExpr (.mk (.BooleanLiteral b) sp)
  | notOp : ∀ e sp, LowerExpr e → LowerExpr (.mk (.UnaryOperation .Not e) sp)
  | bin : ∀ op l r sp, op ≠ .Not → LowerExpr l → LowerExpr r →
      LowerExpr (.mk (.BinaryOperation op l r) sp)

/-- Lowerable top-level statements: a lowerable expression, or `Return` of
one. -/
inductive LowerStmt : Node → Prop
  | expr : ∀ e, LowerExpr e → LowerStmt e
  | ret : ∀ e sp, LowerExpr e → LowerStmt (.mk (.Return e) sp)

/-- Claim C1: the compiler lowers the three compound comparisons by
substitution: `a >= b` compiles to the operands followed by `Less` then
`Not`, `a <= b` to `Greater` then `Not`, and `a != b` to `Equal` then `Not`
(`OpCode` has no dedicated greater-or-equal, less-or-equal or not-equal
variants: `VM::run_op`'s exhaustive match fixes the whole opcode set). -/
theorem claim_c1 : ∀ (l r : Node) (sp : Span) (ch c1 c2 : Chunk),
    Compiler.compile l ch = some c1 → Compiler.compile r c1 = some c2 →
    (Compiler.compile (.mk (.BinaryOperation .GreaterThanEquals l r) sp) ch =
        some ((c2.write_op .Less).write_op .Not) ∧
      ((c2.write_op .Less).write_op .Not).source =
        c2.source ++ [.op .Less, .op .Not]) ∧
    (Compiler.compile (.mk (.BinaryOperation .LessThanEquals l r) sp) ch =
        some ((c2.write_op .Greater).write_op .Not) ∧
      ((c2.write_op .Greater).write_op .Not).source =
        c2.source ++ [.op .Greater, .op .Not]) ∧
    (Compiler.compile (.mk (.BinaryOperation .BangEquals l r) sp) ch =
        some ((c2.write_op .Equal).write_op .Not) ∧
      ((c2.write_op .Equal).write_op .Not).source =
        c2.source ++ [.op .Equal, .op .Not]) := by
  intro l r sp ch c1 c2 h1 h2
  refine ⟨⟨?_, ?_⟩, ⟨?_, ?_⟩, ⟨?_, ?_⟩⟩ <;>
    simp [Compiler.compile, h1, h2, binOpcodeFor, emitsNotAfter, Chunk.write_op]

/-- Witness for C1 at the concrete operands `1 >= 2`, `1 <= 2`, `1 != 2`. -/
theorem claim_c1_wit :
    Compiler.compile (intNode 1 0 1) Chunk.new = some (Chunk.new.write_const (.Integer 1)) ∧
    Compiler.compile (intNode 2 4 5) (Chunk.new.write_const (.Integer 1)) =
      some ((Chunk.new.write_const (.Integer 1)).write_const (.Integer 2)) ∧
    Compiler.compile (.mk (.BinaryOperation .GreaterThanEquals (intNode 1 0 1) (intNode 2 4 5))
        { filename := "t", start := 0, stop := 5 }) Chunk.new =
      some ((((Chunk.new.write_const (.Integer 1)).write_const
        (.Integer 2)).write_op .Less).write_op .Not) :=
  ⟨rfl, rfl,
    (claim_c1 (intNode 1 0 1) (intNode 2 4 5) { filename := "t", start := 0, stop := 5 }
      Chunk.new _ _ rfl rfl).1.1⟩

/-- Claim C3: executing `Return` yields the popped top of stack (the empty
value when the stack is bare) and halts immediately whatever instructions
follow; and running off the end of the opcode stream without a `Return`
yields the empty value. -/
theorem claim_c3 :
    (∀ (K : List Value) (rest : List ChunkItem) (stack : List Value),
      runLoop K (.op .Return :: rest) stack = some (.ok (stack.headD .None))) ∧
    (∀ (K : List Value) (stack : List Value),
      runLoop K [] stack = some (.ok .None)) :=
  ⟨fun _ _ _ => rfl, fun _ _ => rfl⟩

/-- Claim C9 (implicit): the parser turns a `BooleanLiteral` token into a
`BooleanLiteral` node whose value is true exactly when the token text is
the string "True"; any other text - "true", "False", anything - yields the
value false, never an error. -/
theorem claim_c9 :
    (∀ (text : String) (sp : Span) (nb : Bool) (rest : List Token) (fuel : Nat),
      parseAtom (fuel + 1)
          { current := { kind := .BooleanLiteral, span := sp, text := text,
                         newline_before := nb }, rest := rest } =
        (.ok (NodeKind.make (.BooleanLiteral (decide (text = "True"))) sp),
          psAdvance { current := { kind := .BooleanLiteral, span := sp, text := text,
                                   newline_before := nb }, rest := rest })) ∧
    parseAtom 1 { current := tokSp .BooleanLiteral "true" 0 4, rest := [] } =
      (.ok (NodeKind.make (.BooleanLiteral false) { filename := "t", start := 0, stop := 4 }),
        { current := eofFallback, rest := [] }) ∧
    parseAtom 1 { current := tokSp .BooleanLiteral "False" 0 5, rest := [] } =
      (.ok (NodeKind.make (.BooleanLiteral false) { filename := "t", start := 0, stop := 5 }),
        { current := eofFallback, rest := [] }) :=
  ⟨fun _ _ _ _ _ => rfl, by rfl, by rfl⟩

/-- Claim C5, counterexample: `not true and false` does NOT parse as
`(not true) and false`; the parser produces `not (true and false)`, because
the infix loop folds `And` (left power 2) whenever it is not strictly below
the minimum binding power, and prefix `Not`'s strength is exactly 2. -/
theorem claim_c5_cex :
    parseExprToks notAndToks = some notAndActual ∧ notAndActual ≠ notAndClaimed := by
  refine ⟨by rfl, ?_⟩
  intro h
  injection h with hk hs
  cases hk

/-- Claim C5 as amended: `not true and false` parses as
`not (true and false)` - with prefix strength 2 equal to `And`'s left
binding power 2, the infix loop's `lbp < min_bp` test fails and `And` folds
inside the prefix operand, so the unary operation applies to the whole
conjunction. -/
theorem claim_c5_amended : parseExprToks notAndToks = some notAndActual := by rfl

/-- Claim C2: the source's infix table is exactly the claimed binding-power
table; for every pair of infix operators the parser binds the
higher-powered one tighter and associates same-tier operators to the left
(checked on `1 OP1 2 OP2 3` for all 144 pairs); and the three concrete
examples parse as claimed. -/
theorem claim_c2 :
    (∀ k : TokenKind, TokenKind.infixRole k = specInfixTable k) ∧
    (∀ k1 ∈ infixKinds, ∀ k2 ∈ infixKinds,
      parseExprToks (pairToks k1 k2) = pairExpected k1 k2) ∧
    parseExprToks (pairToks .Plus .Star) = some (rightNested .Plus .Star) ∧
    parseExprToks (pairToks .Star .Plus) = some (leftNested .Star .Plus) ∧
    parseExprToks (pairToks .Minus .Minus) = some (leftNested .Minus .Minus) := by
  refine ⟨?_, ?_, by rfl, by rfl, by rfl⟩
  · intro k
    cases k <;> rfl
  · intro k1 h1 k2 h2
    fin_cases h1 <;> fin_cases h2 <;> rfl

/-- Witness for C2 at the concrete pair `Plus`, `Star`. -/
theorem claim_c2_wit :
    parseExprToks (pairToks .Plus .Star) = pairExpected .Plus .Star :=
  claim_c2.2.1 .Plus (by decide) .Star (by decide)

/-- Claim C4: when the `Value` operation dispatched for an opcode fails
(mismatched tags or an unsupported operation), `VM::run` stops at that
fault and returns the failure as a recoverable error result (`some (.error
e)`, never the `none` that models a panic). -/
theorem claim_c4 :
    (∀ (o : OpCode) (f : Value → Value → Except VMErr Value) (K : List Value)
        (rest : List ChunkItem) (a b : Value) (s : List Value) (e : VMErr),
      o.binFn = some f → f a b = .error e →
      runLoop K (.op o :: rest) (b :: a :: s) = some (.error e)) ∧
    (∀ (K : List Value) (rest : List ChunkItem) (v : Value) (s : List Value) (e : VMErr),
      Value.not v = .error e →
      runLoop K (.op .Not :: rest) (v :: s) = some (.error e)) := by
  constructor
  · intro o f K rest a b s e h1 h2
    cases o <;> simp_all [runLoop, OpCode.binFn]
  · intro K rest v s e h
    simp [runLoop, OpCode.binFn, h]

/-- Witness for C4: `Add` on `Integer 1` and `Boolean true` faults and the
VM returns that fault as an error result. -/
theorem claim_c4_wit :
    OpCode.binFn .Add = some Value.add ∧
    Value.add (.Integer 1) (.Boolean true) = .error "unsupported operand types for add" ∧
    runLoop [] [.op .Add] [.Boolean true, .Integer 1] =
      some (.error "unsupported operand types for add") :=
  ⟨rfl, rfl, claim_c4.1 .Add Value.add [] [] (.Integer 1) (.Boolean true) [] _ rfl rfl⟩

/-- `skip_until` scans to the first token satisfying the predicate (or to
EOF), skipping only tokens that satisfy neither; on a stream containing an
EOF token the stopping token is inside the stream. -/
theorem skipUntil_spec (pred : Token → Bool) :
    ∀ (rest : List Token) (cur : Token),
      (cur :: rest).any (fun t => t.kind = .EOF) = true →
      ∃ skipped c' r',
        cur :: rest = skipped ++ c' :: r' ∧
        (∀ t ∈ skipped, pred t = false ∧ t.kind ≠ .EOF) ∧
        (pred c' = true ∨ c'.kind = .EOF) ∧
        skipUntil pred cur rest = { current := c', rest := r' } := by
  intro rest
  induction rest with
  | nil =>
    intro cur h
    by_cases hp : pred cur
    · exact ⟨[], cur, [], rfl, by simp, Or.inl hp, by simp [skipUntil, hp]⟩
    · have he : cur.kind = .EOF := by simpa using h
      exact ⟨[], cur, [], rfl, by simp, Or.inr he, by simp [skipUntil, hp, he]⟩
  | cons t ts ih =>
    intro cur h
    by_cases hp : pred cur
    · exact ⟨[], cur, t :: ts, rfl, by simp, Or.inl hp, by simp [skipUntil, hp]⟩
    · by_cases he : cur.kind = .EOF
      · exact ⟨[], cur, t :: ts, rfl, by simp, Or.inr he, by simp [skipUntil, hp, he]⟩
      · have h' : (t :: ts).any (fun x => x.kind = .EOF) = true := by
          simp only [List.any_cons] at h
          rcases Bool.or_eq_true_iff.mp h with h1 | h1
          · exact absurd (of_decide_eq_true h1) he
          · exact h1
        obtain ⟨skipped, c', r', heq, hskip, hstop, hrun⟩ := ih t h'
        refine ⟨cur :: skipped, c', r', by simp [heq], ?_, hstop, ?_⟩
        · intro x hx
          rcases List.mem_cons.mp hx with hx | hx
          · subst hx; exact ⟨by simpa using hp, he⟩
          · exact hskip x hx
        · rw [skipUntil]
          simp [hp, he, hrun]

/-- Claim C6: after a parse error inside a statement the parser reports
exactly one diagnostic and resynchronizes from the cursor the failing
statement left behind - `sync` skips tokens failing the stop condition
(semicolon, newline-preceded token, or the block's closer) up to the first
stopping token, consuming a semicolon stop - and the block loop then
continues, so valid statements after the malformed one survive (shown in
full on `let = ; 1`, on `let x = ; 2` where the consumed separator makes
recovery skip the `2`, and on the newline-separated variant). -/
theorem claim_c6 :
    (∀ (closer : TokenKind) (cur : Token) (rest : List Token),
      (cur :: rest).any (fun t => t.kind = .EOF) = true →
      ∃ skipped c' r',
        cur :: rest = skipped ++ c' :: r' ∧
        (∀ t ∈ skipped, syncStop closer t = false ∧ t.kind ≠ .EOF) ∧
        (syncStop closer c' = true ∨ c'.kind = .EOF) ∧
        sync closer { current := cur, rest := rest } =
          (if c'.kind = .Semicolon then psAdvance { current := c', rest := r' }
           else { current := c', rest := r' })) ∧
    (∀ (fuel : Nat) (closer : TokenKind) (st st' : PState) (stmts : List Node)
        (reports : List Report) (r : Report),
      ¬(st.current.kind = closer ∨ st.current.kind = .EOF) →
      parseStatement fuel st = (.error r, st') →
      parseBlockLoop (fuel + 1) closer st stmts reports =
        parseBlockLoop fuel closer (sync closer st') stmts (reports ++ [r])) ∧
    parseProgram recoveryToks = some (recoveryNode, [recoveryReport]) ∧
    parseProgram recovery2Toks = some (recovery2Node, [recovery2Report]) ∧
    parseProgram recovery3Toks = some (recovery3Node, [recovery3Report]) := by
  refine ⟨?_, ?_, by rfl, by rfl, by rfl⟩
  · intro closer cur rest h
    obtain ⟨skipped, c', r', heq, hskip, hstop, hrun⟩ :=
      skipUntil_spec (syncStop closer) rest cur h
    exact ⟨skipped, c', r', heq, hskip, hstop, by simp only [sync, hrun]⟩
  · intro fuel closer st st' stmts reports r hcond herr
    simp [parseBlockLoop, hcond, herr]

/-- Witness for C6: resynchronization after the malformed `let = ;` - the
scan from the `=` token stops at the semicolon and consumes it, and the
block loop emits exactly the one report the failed statement produced,
resuming from the error-point cursor at the `=` token. -/
theorem claim_c6_wit :
    (∃ skipped c' r',
      tokSp .Equals "=" 4 5 ::
          [tokSp .Semicolon ";" 5 6, tokSp .IntegerLiteralDec "1" 7 8, tokSp .EOF "" 8 8] =
        skipped ++ c' :: r' ∧
      (∀ t ∈ skipped, syncStop .EOF t = false ∧ t.kind ≠ .EOF) ∧
      (syncStop .EOF c' = true ∨ c'.kind = .EOF) ∧
      sync .EOF { current := tokSp .Equals "=" 4 5,
                  rest := [tokSp .Semicolon ";" 5 6, tokSp .IntegerLiteralDec "1" 7 8,
                           tokSp .EOF "" 8 8] } =
        (if c'.kind = .Semicolon then psAdvance { current := c', rest := r' }
         else { current := c', rest := r' })) ∧
    parseBlockLoop 21 .EOF
        { current := tokSp .Let "let" 0 3,
          rest := [tokSp .Equals "=" 4 5, tokSp .Semicolon ";" 5 6,
                   tokSp .IntegerLiteralDec "1" 7 8, tokSp .EOF "" 8 8] } [] [] =
      parseBlockLoop 20 .EOF
        (sync .EOF
          { current := tokSp .Equals "=" 4 5,
            rest := [tokSp .Semicolon ";" 5 6, tokSp .IntegerLiteralDec "1" 7 8,
                     tokSp .EOF "" 8 8] })
        [] ([] ++ [recoveryReport]) :=
  ⟨claim_c6.1 .EOF (tokSp .Equals "=" 4 5)
      [tokSp .Semicolon ";" 5 6, tokSp .IntegerLiteralDec "1" 7 8, tokSp .EOF "" 8 8]
      (by decide),
    claim_c6.2.1 20 .EOF
      { current := tokSp .Let "let" 0 3,
        rest := [tokSp .Equals "=" 4 5, tokSp .Semicolon ";" 5 6,
                 tokSp .IntegerLiteralDec "1" 7 8, tokSp .EOF "" 8 8] }
      { current := tokSp .Equals "=" 4 5,
        rest := [tokSp .Semicolon ";" 5 6, tokSp .IntegerLiteralDec "1" 7 8,
                 tokSp .EOF "" 8 8] } [] []
      recoveryReport (by decide) (by rfl)⟩

/-- Claim C7, counterexample: for the source file `"\q"` (string token
spanning bytes 0-4, body `\q`), the character `q` sits at byte offset 2,
but the invalid-escape report's primary label marks offset 1 - the
backslash introducing the escape (`span_at(start)` uses the loop-start
index, the index of the backslash, not of the escape character). -/
theorem claim_c7_cex :
    stringParse "\\q" { filename := "t", start := 0, stop := 4 } =
      some (.error
        { level := .Error, title := "SyntaxError Invalid Escape Character: q",
          help := none, note := none,
          labels := [{ span := { filename := "t", start := 1, stop := 1 },
                       message := none, color := none },
                     { span := { filename := "t", start := 0, stop := 4 },
                       message := none, color := some .blue }] }) ∧
    (1 : Nat) ≠ 2 := by
  exact ⟨by rfl, by decide⟩

/-- Claim C7 as amended: `"a\tb"` decodes to `a`, TAB, `b` and `"A"`
to `A`; an unknown escape such as `"\q"` is a reported invalid-escape
error whose primary label points at the backslash that introduces the
invalid escape sequence (one byte before the offending character); a
truncated `\u12` is a reported error - in every case an error result
carrying a diagnostic (`some (.error _)`), never the panic outcome. -/
theorem claim_c7_amended :
    stringParse "a\\tb" { filename := "t", start := 0, stop := 6 } =
      some (.ok "a\tb") ∧
    stringParse "\\u0041" { filename := "t", start := 0, stop := 8 } =
      some (.ok "A") ∧
    stringParse "\\q" { filename := "t", start := 0, stop := 4 } =
      some (.error
        { level := .Error, title := "SyntaxError Invalid Escape Character: q",
          help := none, note := none,
          labels := [{ span := { filename := "t", start := 1, stop := 1 },
                       message := none, color := none },
                     { span := { filename := "t", start := 0, stop := 4 },
                       message := none, color := some .blue }] }) ∧
    (∃ r : Report, stringParse "\\u12" { filename := "t", start := 0, stop := 6 } =
      some (.error r)) := by
  refine ⟨by rfl, by rfl, by rfl, ⟨_, rfl⟩⟩

/-- A successful `from_str_radix` digit scan computes exactly the
fold-accumulated value of the digit string. -/
theorem fromStrRadixCore_value (r : Nat) :
    ∀ (cs : List Char) (acc w : Nat), fromStrRadixCore r cs acc = some w →
      w = cs.foldl (fun a c => a * r + ((digitVal r c).getD 0)) acc := by
  intro cs
  induction cs with
  | nil => intro acc w h; simpa [fromStrRadixCore] using h.symm
  | cons c cs ih =>
    intro acc w h
    unfold fromStrRadixCore at h
    cases hd : digitVal r c with
    | none => exact Option.noConfusion (by simpa only [hd] using h)
    | some d =>
      simp only [hd] at h
      by_cases hb : acc * r + d < usizeBound
      · rw [if_pos hb] at h
        simpa [hd] using ih (acc * r + d) w h
      · rw [if_neg hb] at h; exact absurd h (by simp)

/-- A successful `from_str_radix` scan of a nonempty digit string stays
below `usize::MAX + 1` (the checked multiply/add rejects overflow). -/
theorem fromStrRadixCore_lt (r : Nat) :
    ∀ (cs : List Char) (acc w : Nat), cs ≠ [] → fromStrRadixCore r cs acc = some w →
      w < usizeBound := by
  intro cs
  induction cs with
  | nil => intro acc w h; exact absurd rfl h
  | cons c cs ih =>
    intro acc w _ h
    unfold fromStrRadixCore at h
    cases hd : digitVal r c with
    | none => exact Option.noConfusion (by simpa only [hd] using h)
    | some d =>
      simp only [hd] at h
      by_cases hb : acc * r + d < usizeBound
      · rw [if_pos hb] at h
        cases hcs : cs with
        | nil =>
          subst hcs
          have : w = acc * r + d := by simpa [fromStrRadixCore] using h.symm
          omega
        | cons c' cs' => exact ih (acc * r + d) w (by simp [hcs]) (hcs ▸ h)
      · rw [if_neg hb] at h; exact absurd h (by simp)

/-- `from_str_radix` on a string whose first character is not `+` runs the
digit scan on the whole character list. -/
theorem fromStrRadix_no_sign (s : String) (r : Nat) (c : Char) (cs : List Char)
    (h : s.toList = c :: cs) (hc : c ≠ '+') :
    fromStrRadix s r = fromStrRadixCore r (c :: cs) 0 := by
  unfold fromStrRadix
  rw [h]
  split
  · rename_i heq; exact absurd heq (by simp)
  · rename_i rest heq
    rw [List.cons.injEq] at heq
    exact absurd heq.1 hc
  · rfl

/-- A nonempty all-digit literal whose value reaches `usize::MAX + 1` makes
`from_str_radix` fail. -/
theorem fromStrRadix_overflow (s : String) (r : Nat) (c : Char) (cs : List Char)
    (h : s.toList = c :: cs) (hdig : ∀ x ∈ s.toList, (digitVal r x).isSome)
    (hval : usizeBound ≤ digitsValue r s.toList) :
    fromStrRadix s r = none := by
  have hc : c ≠ '+' := by
    intro hcp
    have hmem : c ∈ s.toList := by
      rw [h]
      exact List.mem_cons_self c cs
    have := hdig c hmem
    rw [hcp] at this
    simp [digitVal] at this
  rw [fromStrRadix_no_sign s r c cs h hc]
  cases hcore : fromStrRadixCore r (c :: cs) 0 with
  | none => rfl
  | some w =>
    have hv := fromStrRadixCore_value r (c :: cs) 0 w hcore
    have hlt := fromStrRadixCore_lt r (c :: cs) 0 w (by simp) hcore
    rw [h] at hval
    unfold digitsValue at hval
    omega

/-- Claim C10 (implicit): integer literals are parsed into an unsigned
64-bit word and wrapped to the signed runtime integer by the compiler's
`as isize` cast - every literal value v with isize::MAX < v <= usize::MAX
compiles, without any error, to the negative constant v - 2^64 - while a
literal of any radix (binary, octal, decimal, or hexadecimal) whose digits
exceed usize::MAX under that radix is a reported syntax error at parse
time. -/
theorem claim_c10 :
    (∀ (v : Nat) (sp : Span) (ch : Chunk),
      2 ^ 63 - 1 < v → v ≤ 2 ^ 64 - 1 →
      Compiler.compile (.mk (.IntegerLiteral v) sp) ch =
        some (ch.write_const (.Integer ((v : Int) - 2 ^ 64))) ∧
      (v : Int) - 2 ^ 64 < 0) ∧
    (∀ (text : String) (sp : Span) (nb : Bool) (rest : List Token) (fuel : Nat)
        (c : Char) (cs : List Char),
      text.toList = c :: cs →
      (∀ x ∈ text.toList, (digitVal 2 x).isSome) →
      usizeBound ≤ digitsValue 2 text.toList →
      parseAtom (fuel + 1)
          { current := { kind := .IntegerLiteralBin, span := sp, text := text,
                         newline_before := nb }, rest := rest } =
        ((.error (((ParserError.SyntaxError
            ("Invalid " ++ NumBase.Binary.name ++ " Integer literal")).makeLabeled
          sp.label).withNote "number parse failure")),
          psAdvance { current := { kind := .IntegerLiteralBin, span := sp, text := text,
                                   newline_before := nb }, rest := rest })) ∧
    (∀ (text : String) (sp : Span) (nb : Bool) (rest : List Token) (fuel : Nat)
        (c : Char) (cs : List Char),
      text.toList = c :: cs →
      (∀ x ∈ text.toList, (digitVal 8 x).isSome) →
      usizeBound ≤ digitsValue 8 text.toList →
      parseAtom (fuel + 1)
          { current := { kind := .IntegerLiteralOct, span := sp, text := text,
                         newline_before := nb }, rest := rest } =
        ((.error (((ParserError.SyntaxError
            ("Invalid " ++ NumBase.Octal.name ++ " Integer literal")).makeLabeled
          sp.label).withNote "number parse failure")),
          psAdvance { current := { kind := .IntegerLiteralOct, span := sp, text := text,
                                   newline_before := nb }, rest := rest })) ∧
    (∀ (text : String) (sp : Span) (nb : Bool) (rest : List Token) (fuel : Nat)
        (c : Char) (cs : List Char),
      text.toList = c :: cs →
      (∀ x ∈ text.toList, (digitVal 10 x).isSome) →
      usizeBound ≤ digitsValue 10 text.toList →
      parseAtom (fuel + 1)
          { current := { kind := .IntegerLiteralDec, span := sp, text := text,
                         newline_before := nb }, rest := rest } =
        ((.error (((ParserError.SyntaxError
            ("Invalid " ++ NumBase.Decimal.name ++ " Integer literal")).makeLabeled
          sp.label).withNote "number parse failure")),
          psAdvance { current := { kind := .IntegerLiteralDec, span := sp, text := text,
                                   newline_before := nb }, rest := rest })) ∧
    (∀ (text : String) (sp : Span) (nb : Bool) (rest : List Token) (fuel : Nat)
        (c : Char) (cs : List Char),
      text.toList = c :: cs →
      (∀ x ∈ text.toList, (digitVal 16 x).isSome) →
      usizeBound ≤ digitsValue 16 text.toList →
      parseAtom (fuel + 1)
          { current := { kind := .IntegerLiteralHex, span := sp, text := text,
                         newline_before := nb }, rest := rest } =
        ((.error (((ParserError.SyntaxError
            ("Invalid " ++ NumBase.Hexadecimal.name ++ " Integer literal")).makeLabeled
          sp.label).withNote "number parse failure")),
          psAdvance { current := { kind := .IntegerLiteralHex, span := sp, text := text,
                                   newline_before := nb }, rest := rest })) := by
  refine ⟨?_, ?_, ?_, ?_, ?_⟩
  · intro v sp ch h1 h2
    have hm : v % usizeBound = v := Nat.mod_eq_of_lt (by unfold usizeBound; omega)
    constructor
    · simp only [Compiler.compile, usizeAsIsize, hm]
      rw [if_neg (by omega : ¬v < 2 ^ 63)]
      norm_num [usizeBound]
    · have hlt : v < 2 ^ 64 := by omega
      have : (v : Int) < 2 ^ 64 := by exact_mod_cast hlt
      omega
  · intro text sp nb rest fuel c cs hlist hdig hval
    have hnone : fromStrRadix text 2 = none :=
      fromStrRadix_overflow text 2 c cs hlist hdig hval
    simp [parseAtom, hnone]
  · intro text sp nb rest fuel c cs hlist hdig hval
    have hnone : fromStrRadix text 8 = none :=
      fromStrRadix_overflow text 8 c cs hlist hdig hval
    simp [parseAtom, hnone]
  · intro text sp nb rest fuel c cs hlist hdig hval
    have hnone : fromStrRadix text 10 = none :=
      fromStrRadix_overflow text 10 c cs hlist hdig hval
    simp [parseAtom, hnone]
  · intro text sp nb rest fuel c cs hlist hdig hval
    have hnone : fromStrRadix text 16 = none :=
      fromStrRadix_overflow text 16 c cs hlist hdig hval
    simp [parseAtom, hnone]

/-- Witness for C10: `usize::MAX` itself compiles to `Integer (-1)`, and a
just-overflowing literal of each radix - binary `1` followed by 64 zeros,
octal `2` followed by 21 zeros, decimal 18446744073709551616, hex `1`
followed by 16 zeros, each denoting 2^64 - is rejected at parse time. -/
theorem claim_c10_wit :
    (Compiler.compile (.mk (.IntegerLiteral (2 ^ 64 - 1)) (Span.at "t" 0)) Chunk.new =
        some (Chunk.new.write_const (.Integer (((2 ^ 64 - 1 : Nat) : Int) - 2 ^ 64))) ∧
      ((2 ^ 64 - 1 : Nat) : Int) - 2 ^ 64 < 0) ∧
    parseAtom 1
        { current := tokSp .IntegerLiteralBin
            "10000000000000000000000000000000000000000000000000000000000000000" 0 0,
          rest := [] } =
      ((.error (((ParserError.SyntaxError
          ("Invalid " ++ NumBase.Binary.name ++ " Integer literal")).makeLabeled
        (Span.at "t" 0).label).withNote "number parse failure")),
        psAdvance
          { current := tokSp .IntegerLiteralBin
              "10000000000000000000000000000000000000000000000000000000000000000" 0 0,
            rest := [] }) ∧
    parseAtom 1
        { current := tokSp .IntegerLiteralOct "2000000000000000000000" 0 0, rest := [] } =
      ((.error (((ParserError.SyntaxError
          ("Invalid " ++ NumBase.Octal.name ++ " Integer literal")).makeLabeled
        (Span.at "t" 0).label).withNote "number parse failure")),
        psAdvance
          { current := tokSp .IntegerLiteralOct "2000000000000000000000" 0 0,
            rest := [] }) ∧
    parseAtom 1
        { current := tokSp .IntegerLiteralDec "18446744073709551616" 0 0, rest := [] } =
      ((.error (((ParserError.SyntaxError
          ("Invalid " ++ NumBase.Decimal.name ++ " Integer literal")).makeLabeled
        (Span.at "t" 0).label).withNote "number parse failure")),
        psAdvance
          { current := tokSp .IntegerLiteralDec "18446744073709551616" 0 0,
            rest := [] }) ∧
    parseAtom 1
        { current := tokSp .IntegerLiteralHex "10000000000000000" 0 0, rest := [] } =
      ((.error (((ParserError.SyntaxError
          ("Invalid " ++ NumBase.Hexadecimal.name ++ " Integer literal")).makeLabeled
        (Span.at "t" 0).label).withNote "number parse failure")),
        psAdvance
          { current := tokSp .IntegerLiteralHex "10000000000000000" 0 0,
            rest := [] }) :=
  ⟨claim_c10.1 (2 ^ 64 - 1) (Span.at "t" 0) Chunk.new (by norm_num) (by norm_num),
    claim_c10.2.1
      "10000000000000000000000000000000000000000000000000000000000000000"
      (Span.at "t" 0) false [] 0 '1'
      "0000000000000000000000000000000000000000000000000000000000000000".toList
      (by decide) (by decide) (by decide),
    claim_c10.2.2.1 "2000000000000000000000" (Span.at "t" 0) false [] 0 '2'
      "000000000000000000000".toList (by decide) (by decide) (by decide),
    claim_c10.2.2.2.1 "18446744073709551616" (Span.at "t" 0) false [] 0 '1'
      "8446744073709551616".toList (by decide) (by decide) (by decide),
    claim_c10.2.2.2.2 "10000000000000000" (Span.at "t" 0) false [] 0 '1'
      "0000000000000000".toList (by decide) (by decide) (by decide)⟩

/-- Reading through a list prefix: positions inside the prefix see the same
entries in any extension. -/
theorem pool_lookup_mono {l1 l2 : List Value} (h : l1 <+: l2) {n : Nat}
    (hn : n < l1.length) : l2[n]? = l1[n]? := by
  obtain ⟨t, rfl⟩ := h
  exact List.getElem?_append_left hn

/-- `Const` pushes the indexed pool entry and execution continues. -/
theorem runLoop_const (K : List Value) (n : Nat) (v : Value) (rest : List ChunkItem)
    (stack : List Value) (h : K[n]? = some v) :
    runLoop K (.op .Const :: .idx n :: rest) stack = runLoop K rest (v :: stack) := by
  simp [runLoop, h]

/-- A binary opcode whose `Value` operation succeeds pops both operands and
pushes the result. -/
theorem runLoop_bin_ok (K : List Value) (oc : OpCode)
    (f : Value → Value → Except VMErr Value) (a b v : Value) (rest : List ChunkItem)
    (s : List Value) (hf : oc.binFn = some f) (hv : f a b = .ok v) :
    runLoop K (.op oc :: rest) (b :: a :: s) = runLoop K rest (v :: s) := by
  cases oc <;> simp_all [runLoop, OpCode.binFn]

/-- A binary opcode whose `Value` operation fails makes the VM return the
error result immediately. -/
theorem runLoop_bin_err (K : List Value) (oc : OpCode)
    (f : Value → Value → Except VMErr Value) (a b : Value) (e : VMErr)
    (rest : List ChunkItem) (s : List Value) (hf : oc.binFn = some f)
    (hv : f a b = .error e) :
    runLoop K (.op oc :: rest) (b :: a :: s) = some (.error e) := by
  cases oc <;> simp_all [runLoop, OpCode.binFn]

/-- `Not` on a Boolean pops it and pushes the negation. -/
theorem runLoop_not_ok (K : List Value) (v r : Value) (rest : List ChunkItem)
    (s : List Value) (h : Value.not v = .ok r) :
    runLoop K (.op .Not :: rest) (v :: s) = runLoop K rest (r :: s) := by
  simp [runLoop, OpCode.binFn, h]

/-- `Not` on a non-Boolean makes the VM return the error result. -/
theorem runLoop_not_err (K : List Value) (v : Value) (e : VMErr)
    (rest : List ChunkItem) (s : List Value) (h : Value.not v = .error e) :
    runLoop K (.op .Not :: rest) (v :: s) = some (.error e) := by
  simp [runLoop, OpCode.binFn, h]

/-- Every operator except `Not` has a lowering opcode, and that opcode
dispatches a binary `Value` operation. -/
theorem binOpcodeFor_some (op : Operator) (hne : op ≠ .Not) :
    ∃ oc f, binOpcodeFor op = some oc ∧ OpCode.binFn oc = some f := by
  cases op <;> first
    | exact absurd rfl hne
    | exact ⟨_, _, rfl, rfl⟩

/-- Compilation simulation for lowerable expressions: the emitted code is a
pure suffix, the constant pool only grows, and executing the emitted code
from any stack either pushes exactly one net value and falls through to the
following code, or stops with an error result - it never reaches a
stack-pop panic. -/
theorem compile_expr_sim :
    ∀ (e : Node), LowerExpr e → ∀ (ch ch' : Chunk), Compiler.compile e ch = some ch' →
      ch.constants <+: ch'.constants ∧
      ∃ code, ch'.source = ch.source ++ code ∧
        ∀ (K : List Value), ch'.constants <+: K →
          ∀ (rest : List ChunkItem) (stack : List Value),
            (∃ v, runLoop K (code ++ rest) stack = runLoop K rest (v :: stack)) ∨
            (∃ err, runLoop K (code ++ rest) stack = some (.error err)) := by
  intro e he
  induction he with
  | str s sp =>
    intro ch ch' h
    simp only [Compiler.compile] at h
    injection h with h
    subst h
    refine ⟨⟨[.String s], rfl⟩, [.op .Const, .idx ch.constants.length], rfl, ?_⟩
    intro K hK rest stack
    left
    refine ⟨.String s, runLoop_const K ch.constants.length _ rest stack ?_⟩
    rw [pool_lookup_mono hK (by simp [Chunk.write_const])]
    exact List.getElem?_concat_length _ _
  | float v sp =>
    intro ch ch' h
    simp only [Compiler.compile] at h
    injection h with h
    subst h
    refine ⟨⟨[.Float v], rfl⟩, [.op .Const, .idx ch.constants.length], rfl, ?_⟩
    intro K hK rest stack
    left
    refine ⟨.Float v, runLoop_const K ch.constants.length _ rest stack ?_⟩
    rw [pool_lookup_mono hK (by simp [Chunk.write_const])]
    exact List.getElem?_concat_length _ _
  | int v sp =>
    intro ch ch' h
    simp only [Compiler.compile] at h
    injection h with h
    subst h
    refine ⟨⟨[.Integer (usizeAsIsize v)], rfl⟩,
      [.op .Const, .idx ch.constants.length], rfl, ?_⟩
    intro K hK rest stack
    left
    refine ⟨.Integer (usizeAsIsize v), runLoop_const K ch.constants.length _ rest stack ?_⟩
    rw [pool_lookup_mono hK (by simp [Chunk.write_const])]
    exact List.getElem?_concat_length _ _
  | bool b sp =>
    intro ch ch' h
    simp only [Compiler.compile] at h
    injection h with h
    subst h
    refine ⟨⟨[.Boolean b], rfl⟩, [.op .Const, .idx ch.constants.length], rfl, ?_⟩
    intro K hK rest stack
    left
    refine ⟨.Boolean b, runLoop_const K ch.constants.length _ rest stack ?_⟩
    rw [pool_lookup_mono hK (by simp [Chunk.write_const])]
    exact List.getElem?_concat_length _ _
  | notOp e sp hle ih =>
    intro ch ch' h
    simp only [Compiler.compile] at h
    cases hcomp : Compiler.compile e ch with
    | none => rw [hcomp] at h; exact absurd h (by simp)
    | some c =>
      rw [hcomp] at h
      simp only [Option.some_bind] at h
      injection h with h
      subst h
      obtain ⟨hpre, code_e, hsrc, hexec⟩ := ih ch c hcomp
      refine ⟨hpre, code_e ++ [.op .Not], by simp [Chunk.write_op, hsrc], ?_⟩
      intro K hK rest stack
      have hassoc : (code_e ++ [.op .Not]) ++ rest = code_e ++ (.op .Not :: rest) := by simp
      rcases hexec K hK (.op .Not :: rest) stack with ⟨v, hv⟩ | ⟨err, herr⟩
      · cases hnot : Value.not v with
        | ok r =>
          exact Or.inl ⟨r, by rw [hassoc, hv, runLoop_not_ok K v r rest stack hnot]⟩
        | error er =>
          exact Or.inr ⟨er, by rw [hassoc, hv, runLoop_not_err K v er rest stack hnot]⟩
      · exact Or.inr ⟨err, by rw [hassoc]; exact herr⟩
  | bin op l r sp hne hll hlr ihl ihr =>
    intro ch ch' h
    simp only [Compiler.compile] at h
    cases hcl : Compiler.compile l ch with
    | none => rw [hcl] at h; exact absurd h (by simp)
    | some c1 =>
      rw [hcl] at h
      simp only [Option.some_bind] at h
      cases hcr : Compiler.compile r c1 with
      | none => rw [hcr] at h; exact absurd h (by simp)
      | some c2 =>
        rw [hcr] at h
        simp only [Option.some_bind] at h
        obtain ⟨oc, f, hoc, hf⟩ := binOpcodeFor_some op hne
        rw [hoc] at h
        injection h with h
        obtain ⟨hpre1, code_l, hsrc1, hexec1⟩ := ihl ch c1 hcl
        obtain ⟨hpre2, code_r, hsrc2, hexec2⟩ := ihr c1 c2 hcr
        cases hE : emitsNotAfter op with
        | false =>
          rw [hE] at h
          simp only [Bool.false_eq_true, if_false] at h
          subst h
          refine ⟨hpre1.trans hpre2, code_l ++ (code_r ++ [.op oc]),
            by simp [Chunk.write_op, hsrc1, hsrc2], ?_⟩
          intro K hK rest stack
          have hK2 : c2.constants <+: K := hK
          have hK1 : c1.constants <+: K := hpre2.trans hK2
          have hassoc : (code_l ++ (code_r ++ [.op oc])) ++ rest =
              code_l ++ (code_r ++ (.op oc :: rest)) := by simp
          rcases hexec1 K hK1 (code_r ++ (.op oc :: rest)) stack with ⟨v1, h1⟩ | ⟨e1, h1⟩
          · rcases hexec2 K hK2 (.op oc :: rest) (v1 :: stack) with ⟨v2, h2⟩ | ⟨e2, h2⟩
            · cases hop : f v1 v2 with
              | ok u =>
                exact Or.inl ⟨u, by
                  rw [hassoc, h1, h2, runLoop_bin_ok K oc f v1 v2 u rest stack hf hop]⟩
              | error er =>
                exact Or.inr ⟨er, by
                  rw [hassoc, h1, h2, runLoop_bin_err K oc f v1 v2 er rest stack hf hop]⟩
            · exact Or.inr ⟨e2, by rw [hassoc, h1]; exact h2⟩
          · exact Or.inr ⟨e1, by rw [hassoc]; exact h1⟩
        | true =>
          rw [hE] at h
          simp only [if_true] at h
          subst h
          refine ⟨hpre1.trans hpre2, code_l ++ (code_r ++ [.op oc, .op .Not]),
            by simp [Chunk.write_op, hsrc1, hsrc2], ?_⟩
          intro K hK rest stack
          have hK2 : c2.constants <+: K := hK
          have hK1 : c1.constants <+: K := hpre2.trans hK2
          have hassoc : (code_l ++ (code_r ++ [.op oc, .op .Not])) ++ rest =
              code_l ++ (code_r ++ (.op oc :: .op .Not :: rest)) := by simp
          rcases hexec1 K hK1 (code_r ++ (.op oc :: .op .Not :: rest)) stack with
            ⟨v1, h1⟩ | ⟨e1, h1⟩
          · rcases hexec2 K hK2 (.op oc :: .op .Not :: rest) (v1 :: stack) with
              ⟨v2, h2⟩ | ⟨e2, h2⟩
            · cases hop : f v1 v2 with
              | ok u =>
                cases hnot : Value.not u with
                | ok w =>
                  exact Or.inl ⟨w, by
                    rw [hassoc, h1, h2,
                      runLoop_bin_ok K oc f v1 v2 u (.op .Not :: rest) stack hf hop,
                      runLoop_not_ok K u w rest stack hnot]⟩
                | error er =>
                  exact Or.inr ⟨er, by
                    rw [hassoc, h1, h2,
                      runLoop_bin_ok K oc f v1 v2 u (.op .Not :: rest) stack hf hop,
                      runLoop_not_err K u er rest stack hnot]⟩
              | error er =>
                exact Or.inr ⟨er, by
                  rw [hassoc, h1, h2,
                    runLoop_bin_err K oc f v1 v2 er (.op .Not :: rest) stack hf hop]⟩
            · exact Or.inr ⟨e2, by rw [hassoc, h1]; exact h2⟩
          · exact Or.inr ⟨e1, by rw [hassoc]; exact h1⟩

/-- Lowerable expressions always compile (no `unimplemented!` path is hit). -/
theorem compile_expr_total :
    ∀ (e : Node), LowerExpr e → ∀ ch, ∃ ch', Compiler.compile e ch = some ch' := by
  intro e he
  induction he with
  | str s sp => intro ch; exact ⟨_, rfl⟩
  | float v sp => intro ch; exact ⟨_, rfl⟩
  | int v sp => intro ch; exact ⟨_, rfl⟩
  | bool b sp => intro ch; exact ⟨_, rfl⟩
  | notOp e sp hle ih =>
    intro ch
    obtain ⟨c, hc⟩ := ih ch
    exact ⟨c.write_op .Not, by simp [Compiler.compile, hc]⟩
  | bin op l r sp hne hll hlr ihl ihr =>
    intro ch
    obtain ⟨c1, h1⟩ := ihl ch
    obtain ⟨c2, h2⟩ := ihr c1
    obtain ⟨oc, f, hoc, hf⟩ := binOpcodeFor_some op hne
    exact ⟨if emitsNotAfter op then (c2.write_op oc).write_op .Not else c2.write_op oc,
      by simp [Compiler.compile, h1, h2, hoc]⟩

/-- Lowerable statements always compile. -/
theorem compile_stmt_total :
    ∀ (s : Node), LowerStmt s → ∀ ch, ∃ ch', Compiler.compile s ch = some ch' := by
  intro s hs
  cases hs with
  | @expr e he => exact compile_expr_total s he
  | @ret e sp he =>
    intro ch
    obtain ⟨c, hc⟩ := compile_expr_total e he ch
    exact ⟨c.write_op .Return, by simp [Compiler.compile, hc]⟩

/-- Simulation for lowerable statements: the emitted code either falls
through to the following code with some stack, or terminates the whole run
with a definite result (a `Return` value or an error) - never a panic. -/
theorem compile_stmt_sim :
    ∀ (s : Node), LowerStmt s → ∀ (ch ch' : Chunk), Compiler.compile s ch = some ch' →
      ch.constants <+: ch'.constants ∧
      ∃ code, ch'.source = ch.source ++ code ∧
        ∀ (K : List Value), ch'.constants <+: K →
          ∀ (rest : List ChunkItem) (stack : List Value),
            (∃ stack', runLoop K (code ++ rest) stack = runLoop K rest stack') ∨
            (∃ res, runLoop K (code ++ rest) stack = some res) := by
  intro s hs
  cases hs with
  | @expr e he =>
    intro ch ch' h
    obtain ⟨hpre, code, hsrc, hexec⟩ := compile_expr_sim s he ch ch' h
    refine ⟨hpre, code, hsrc, ?_⟩
    intro K hK rest stack
    rcases hexec K hK rest stack with ⟨v, hv⟩ | ⟨err, herr⟩
    · exact Or.inl ⟨v :: stack, hv⟩
    · exact Or.inr ⟨.error err, herr⟩
  | @ret e sp he =>
    intro ch ch' h
    simp only [Compiler.compile] at h
    cases hcomp : Compiler.compile e ch with
    | none => rw [hcomp] at h; exact absurd h (by simp)
    | some c =>
      rw [hcomp] at h
      simp only [Option.map_some'] at h
      injection h with h
      subst h
      obtain ⟨hpre, code_e, hsrc, hexec⟩ := compile_expr_sim e he ch c hcomp
      refine ⟨hpre, code_e ++ [.op .Return], by simp [Chunk.write_op, hsrc], ?_⟩
      intro K hK rest stack
      have hassoc : (code_e ++ [.op .Return]) ++ rest = code_e ++ (.op .Return :: rest) := by
        simp
      rcases hexec K hK (.op .Return :: rest) stack with ⟨v, hv⟩ | ⟨err, herr⟩
      · refine Or.inr ⟨.ok v, ?_⟩
        rw [hassoc, hv]
        rfl
      · exact Or.inr ⟨.error err, by rw [hassoc]; exact herr⟩

/-- Folding the compiler over a list of lowerable statements produces one
chunk whose execution from any point never panics. -/
theorem foldl_compile_sim :
    ∀ (stmts : List Node) (ch : Chunk), (∀ s ∈ stmts, LowerStmt s) →
      ∃ ch', stmts.foldlM (fun c s => Compiler.compile s c) ch = some ch' ∧
        ch.constants <+: ch'.constants ∧
        ∃ code, ch'.source = ch.source ++ code ∧
          ∀ (K : List Value), ch'.constants <+: K →
            ∀ (rest : List ChunkItem) (stack : List Value),
              (∃ stack', runLoop K (code ++ rest) stack = runLoop K rest stack') ∨
              (∃ res, runLoop K (code ++ rest) stack = some res) := by
  intro stmts
  induction stmts with
  | nil =>
    intro ch _
    exact ⟨ch, rfl, List.prefix_refl _, [], by simp,
      fun K hK rest stack => Or.inl ⟨stack, by simp⟩⟩
  | cons s ss ih =>
    intro ch hall
    have hs := hall s (by simp)
    obtain ⟨c1, hc1⟩ := compile_stmt_total s hs ch
    obtain ⟨hpre1, code_s, hsrc1, hexec1⟩ := compile_stmt_sim s hs ch c1 hc1
    obtain ⟨ch', hfold, hpre2, code_ss, hsrc2, hexec2⟩ :=
      ih c1 (fun x hx => hall x (by simp [hx]))
    refine ⟨ch', by simp [List.foldlM_cons, hc1, hfold],
      hpre1.trans hpre2, code_s ++ code_ss, by simp [hsrc2, hsrc1], ?_⟩
    intro K hK rest stack
    have hK1 : c1.constants <+: K := hpre2.trans hK
    have hassoc : (code_s ++ code_ss) ++ rest = code_s ++ (code_ss ++ rest) := by simp
    rcases hexec1 K hK1 (code_ss ++ rest) stack with ⟨stack', h1⟩ | ⟨res, h1⟩
    · rcases hexec2 K hK rest stack' with ⟨stack'', h2⟩ | ⟨res, h2⟩
      · exact Or.inl ⟨stack'', by rw [hassoc, h1, h2]⟩
      · exact Or.inr ⟨res, by rw [hassoc, h1]; exact h2⟩
    · exact Or.inr ⟨res, by rw [hassoc]; exact h1⟩

/-- Claim C8 (implicit): over the lowerable fragment (literals, unary
`Not`, binary operations, `Return` of such) the compiled bytecode for each
expression leaves exactly one net value on the stack (or faults with an
error result), and executing a whole compiled program never underflows the
operand stack: the run never reaches a stack-pop panic (`none`). -/
theorem claim_c8 :
    (∀ (e : Node) (ch ch' : Chunk), LowerExpr e → Compiler.compile e ch = some ch' →
      ∃ code, ch'.source = ch.source ++ code ∧
        ∀ (rest : List ChunkItem) (stack : List Value),
          (∃ v, runLoop ch'.constants (code ++ rest) stack =
              runLoop ch'.constants rest (v :: stack)) ∨
          (∃ err, runLoop ch'.constants (code ++ rest) stack = some (.error err))) ∧
    (∀ (sp : Span) (stmts : List Node), (∀ s ∈ stmts, LowerStmt s) →
      ∃ chunk, compileProgram (.mk (.Block stmts) sp) = some chunk ∧
        vmRun chunk ≠ none) := by
  constructor
  · intro e ch ch' he h
    obtain ⟨hpre, code, hsrc, hexec⟩ := compile_expr_sim e he ch ch' h
    exact ⟨code, hsrc, hexec ch'.constants (List.prefix_refl _)⟩
  · intro sp stmts hall
    obtain ⟨ch', hfold, hpre, code, hsrc, hexec⟩ := foldl_compile_sim stmts Chunk.new hall
    refine ⟨ch', by simpa [compileProgram] using hfold, ?_⟩
    have hsrc' : ch'.source = code := by simpa [Chunk.new] using hsrc
    unfold vmRun
    rw [hsrc']
    have hnil : code ++ ([] : List ChunkItem) = code := by simp
    rcases hexec ch'.constants (List.prefix_refl _) [] [] with ⟨stack', h1⟩ | ⟨res, h1⟩
    · rw [hnil] at h1
      rw [h1]
      simp [runLoop]
    · rw [hnil] at h1
      rw [h1]
      simp

/-- Witness for C8: the literal expression `1` compiles to code pushing one
value, and the one-statement program `return 1` compiles and runs without
any panic. -/
theorem claim_c8_wit :
    (∃ code, (Chunk.new.write_const (.Integer 1)).source = Chunk.new.source ++ code ∧
      ∀ (rest : List ChunkItem) (stack : List Value),
        (∃ v, runLoop (Chunk.new.write_const (.Integer 1)).constants (code ++ rest) stack =
            runLoop (Chunk.new.write_const (.Integer 1)).constants rest (v :: stack)) ∨
        (∃ err, runLoop (Chunk.new.write_const (.Integer 1)).constants (code ++ rest) stack =
            some (.error err))) ∧
    (∃ chunk, compileProgram (.mk (.Block [.mk (.Return (intNode 1 0 1)) (Span.at "t" 0)])
        (Span.at "t" 0)) = some chunk ∧ vmRun chunk ≠ none) :=
  ⟨claim_c8.1 (intNode 1 0 1) Chunk.new (Chunk.new.write_const (.Integer 1))
      (LowerExpr.int 1 { filename := "t", start := 0, stop := 1 }) rfl,
    claim_c8.2 (Span.at "t" 0) [.mk (.Return (intNode 1 0 1)) (Span.at "t" 0)]
      (by
        intro s hs
        rw [List.mem_singleton] at hs
        subst hs
        exact LowerStmt.ret _ _ (LowerExpr.int 1 { filename := "t", start := 0, stop := 1 }))⟩
